import Mathlib

/-!
# Verification of the claude-extend-CCT automation scripts

Shallow embedding, in Lean 4, of the parts of the repository's Python
scripts that the specification's testable properties talk about:

* `Scripts/tag_standardizer.py` — tag normalization, tag-list
  standardization, and YAML frontmatter extraction;
* `Scripts/find_keyword_connections.py` — keyword-based connection
  suggestions between documents;
* `Scripts/moc_generator.py` — MOC (index document) generation;
* `generate_components_json.py` — build-manifest generation, download-stats
  pagination and the security-audit subprocess wrapper.

Python strings are modelled as Lean `String`s (ASCII view of `lower`,
whitespace and digit classes), Python dicts as association lists with
first-match lookup, and the filesystem / network / subprocess boundaries as
explicit data passed into the embedded functions.
-/

/-! ## Python string primitives

All primitives are implemented over `List Char` (the underlying data of a
Lean `String`) by structural recursion, so that concrete runs reduce inside
the kernel. -/

/-- Python `str.lower()` (ASCII model): lowercase every character. -/
def lowerL (l : List Char) : List Char := l.map Char.toLower

/-- Python `str.strip()` (whitespace model): drop leading and trailing
whitespace characters. -/
def stripL (l : List Char) : List Char :=
  ((l.dropWhile Char.isWhitespace).reverse.dropWhile Char.isWhitespace).reverse

/-- Python `s.replace(a, b)` for single characters `a`, `b`. -/
def replaceCharL (a b : Char) (l : List Char) : List Char :=
  l.map (fun c => if c == a then b else c)

/-- Python `s.split(sep)` for a single-character separator `sep` (always
returns at least one group; adjacent separators yield empty groups). -/
def splitOnCharL (sep : Char) : List Char → List (List Char)
  | [] => [[]]
  | c :: rest =>
    match splitOnCharL sep rest with
    | [] => [[]]
    | g :: gs => if c == sep then [] :: g :: gs else (c :: g) :: gs

/-- Python `'/'.join(parts)` (with `sep = '/'` or any separator). -/
def joinSepL (sep : Char) : List (List Char) → List Char
  | [] => []
  | p :: ps => p ++ ps.flatMap (fun q => sep :: q)

/-- Python dict lookup into a literal table of string pairs (all keys in the
tables of this repository are distinct, so first-match lookup coincides with
dict semantics). -/
def lookupL (key : List Char) : List (String × String) → Option String
  | [] => none
  | (k, v) :: rest => if k.data == key then some v else lookupL key rest

/-! ## tag_standardizer.py — `TagStandardizer.standard_mappings`

The static synonym table defined in `TagStandardizer.__init__`
(tag_standardizer.py lines 23–134), in source order.  Python dict lookup is
modelled by first-match association-list lookup (all keys are distinct). -/

def standard_mappings : List (String × String) := [
  -- Color codes to semantic tags
  ("#F0EEE6", "clippings"),
  ("#e0e0e0", "reference"),
  ("#f0f0f0", "note"),
  -- Technology standardization
  ("langchain", "langchain"),
  ("lang-chain", "langchain"),
  ("LangChain", "langchain"),
  ("langgraph", "langgraph"),
  ("lang-graph", "langgraph"),
  ("LangGraph", "langgraph"),
  ("mcp", "mcp"),
  ("MCP", "mcp"),
  ("model-context-protocol", "mcp"),
  ("Model Context Protocol", "mcp"),
  ("graphrag", "graphrag"),
  ("GraphRAG", "graphrag"),
  ("graph-rag", "graphrag"),
  ("openai", "openai"),
  ("OpenAI", "openai"),
  ("anthropic", "anthropic"),
  ("Anthropic", "anthropic"),
  ("claude", "anthropic"),
  ("Claude", "anthropic"),
  ("llm", "ai/llm"),
  ("LLM", "ai/llm"),
  ("ai-agents", "ai/agents"),
  ("AI Agents", "ai/agents"),
  ("embeddings", "ai/embeddings"),
  ("vector-db", "ai/embeddings"),
  ("rag", "ai/embeddings"),
  ("RAG", "ai/embeddings"),
  -- Common case standardizations
  ("MOC", "moc"),
  ("API", "api"),
  ("RSS", "rss"),
  ("UI", "ui"),
  ("AI", "ai"),
  -- Content type standardization
  ("research", "research"),
  ("Research", "research"),
  ("tutorial", "tutorial"),
  ("Tutorial", "tutorial"),
  ("how-to", "tutorial"),
  ("guide", "tutorial"),
  ("reference", "reference"),
  ("Reference", "reference"),
  ("docs", "reference"),
  ("documentation", "reference"),
  ("idea", "idea"),
  ("Idea", "idea"),
  ("ideas", "idea"),
  ("brainstorm", "idea"),
  ("concept", "idea"),
  ("meeting", "meeting"),
  ("Meeting", "meeting"),
  ("notes", "meeting"),
  ("email", "email"),
  ("Email", "email"),
  ("correspondence", "email"),
  ("daily", "daily"),
  ("Daily", "daily"),
  ("journal", "daily"),
  ("Journal", "daily"),
  ("log", "daily"),
  -- Business tags
  ("client", "client"),
  ("Client", "client"),
  ("business", "business"),
  ("Business", "business"),
  ("startup", "startup"),
  ("Startup", "startup"),
  ("freelance", "freelance"),
  ("Freelance", "freelance"),
  ("project", "project"),
  ("Project", "project"),
  -- Status tags
  ("active", "status/active"),
  ("Active", "status/active"),
  ("draft", "status/draft"),
  ("Draft", "status/draft"),
  ("completed", "status/completed"),
  ("Completed", "status/completed"),
  ("archived", "status/archived"),
  ("Archived", "status/archived"),
  ("todo", "action/todo"),
  ("TODO", "action/todo"),
  ("follow-up", "action/follow-up"),
  ("Follow-up", "action/follow-up"),
  -- Learning tags
  ("course", "learning/course"),
  ("Course", "learning/course"),
  ("certification", "learning/certification"),
  ("Certification", "learning/certification"),
  ("book", "learning/book"),
  ("Book", "learning/book"),
  ("video", "learning/video"),
  ("Video", "learning/video"),
  ("podcast", "learning/podcast"),
  ("Podcast", "learning/podcast"),
  ("conference", "learning/conference"),
  ("Conference", "learning/conference"),
  ("webinar", "learning/webinar"),
  ("Webinar", "learning/webinar")]

/-! ## tag_standardizer.py — `normalize_tag` (lines 163–190) -/

/-- `if tag.startswith('#'): tag = tag[1:]` — drop one leading hash. -/
def stripHashL (l : List Char) : List Char :=
  match l with
  | '#' :: rest => rest
  | other => other

/-- `re.match(r'\d{4}/\d{2}', tag)`: the tag starts with four digits, a
slash, and two digits (prefix match, as `re.match` anchors only at the
start). -/
def dateMatchL (tag : List Char) : Bool :=
  match tag with
  | a :: b :: c :: d :: s :: e :: f :: _ =>
      a.isDigit && b.isDigit && c.isDigit && d.isDigit && s == '/' &&
        e.isDigit && f.isDigit
  | _ => false

/-- The final `return tag.lower().replace(' ', '-')` fallback. -/
def defaultNormL (tag : List Char) : List Char := replaceCharL ' ' '-' (lowerL tag)

/-- The top-level hierarchy prefixes excluded from the path-segment rule:
`tag.startswith(('ai/', 'client/', 'learning/', 'status/', 'action/'))`. -/
def protectedPrefixL (tag : List Char) : Bool :=
  "ai/".data.isPrefixOf tag || "client/".data.isPrefixOf tag ||
    "learning/".data.isPrefixOf tag || "status/".data.isPrefixOf tag ||
    "action/".data.isPrefixOf tag

/-- The category whitelist of the path-segment rule:
`category in ['ai', 'client', 'learning', 'business', 'project']`. -/
def topCategories : List (List Char) :=
  ["ai".data, "client".data, "learning".data, "business".data, "project".data]

/-- Body of `normalize_tag` after the strip/hash preprocessing: synonym
table lookup, then the date rule, then the path-segment rule, then the
lowercase/hyphenate fallback. -/
def normCoreL (tag : List Char) : List Char :=
  match lookupL tag standard_mappings with
  | some v => v.data
  | none =>
    if dateMatchL tag then "daily/".data ++ tag
    else if tag.contains '/' && !(protectedPrefixL tag) then
      let parts := splitOnCharL '/' tag
      if 2 ≤ parts.length then
        let category := lowerL (parts.headD [])
        if topCategories.contains category then
          category ++ '/' :: lowerL (joinSepL '/' parts.tail)
        else defaultNormL tag
      else defaultNormL tag
    else defaultNormL tag

/-- `TagStandardizer.normalize_tag` (tag_standardizer.py lines 163–190):
strip whitespace, drop a leading `#`, then apply `normCoreL`. -/
def normalize_tag (tag : String) : String := ⟨normCoreL (stripHashL (stripL tag.data))⟩

/-! ## tag_standardizer.py — `standardize_tags` (lines 192–212), list branch

The loop `for tag in tags: normalized = self.normalize_tag(tag); if
normalized and normalized not in standardized: standardized.append(...)`.
(`if normalized` is Python truthiness: the string is non-empty.) -/

/-- One iteration of the `standardize_tags` loop. -/
def stdStep (acc : List String) (tag : String) : List String :=
  let n := normalize_tag tag
  if n ≠ "" ∧ n ∉ acc then acc ++ [n] else acc

/-- `TagStandardizer.standardize_tags` on a list of tag strings. -/
def standardize_tags (tags : List String) : List String :=
  tags.foldl stdStep []

/-! ## Specification-side description for the tag-list claim

`dedupFirst` keeps the first occurrence of every element, in first-seen
order — the spec's "de-duplicates while preserving first-seen order". -/

/-- Keep the first occurrence of each element, preserving order. -/
def dedupFirst : List String → List String
  | [] => []
  | a :: l => a :: dedupFirst (l.filter (fun x => x ≠ a))
termination_by l => l.length
decreasing_by
  simp only [List.length_cons]
  exact Nat.lt_succ_of_le (List.length_filter_le _ _)

/-! ## Helper lemmas about `lookupL`, `dedupFirst` and the fold -/

/-- A successful table lookup returns one of the table's values. -/
lemma lookupL_mem_values (key : List Char) :
    ∀ (table : List (String × String)) (v : String),
      lookupL key table = some v → v ∈ table.map Prod.snd := by
  intro table
  induction table with
  | nil => intro v h; simp [lookupL] at h
  | cons p rest ih =>
    intro v h
    rw [lookupL] at h
    by_cases hk : p.1.data == key
    · simp [hk] at h
      simp [← h]
    · simp [hk] at h
      exact List.mem_cons_of_mem _ (ih v h)

set_option maxRecDepth 40000 in
/-- Every value of the static synonym table is a fixed point of
`normalize_tag` (finite check over the table). -/
lemma std_values_fixed : ∀ v ∈ standard_mappings.map Prod.snd, normalize_tag v = v := by
  decide

/-- Elements of `dedupFirst l` come from `l`. -/
theorem dedupFirst_subset : ∀ (l : List String), ∀ x ∈ dedupFirst l, x ∈ l
  | [] => by simp [dedupFirst]
  | a :: t => by
    intro x hx
    rw [dedupFirst] at hx
    rcases List.mem_cons.mp hx with h | h
    · simp [h]
    · have hmem := dedupFirst_subset (t.filter (fun y => y ≠ a)) x h
      exact List.mem_cons_of_mem _ (List.mem_of_mem_filter hmem)
termination_by l => l.length
decreasing_by
  simp only [List.length_cons]
  exact Nat.lt_succ_of_le (List.length_filter_le _ _)

/-- `dedupFirst` returns a duplicate-free list. -/
theorem dedupFirst_nodup : ∀ (l : List String), (dedupFirst l).Nodup
  | [] => by simp [dedupFirst]
  | a :: t => by
    rw [dedupFirst]
    refine List.nodup_cons.mpr ⟨?_, dedupFirst_nodup (t.filter (fun y => y ≠ a))⟩
    intro hmem
    have hx := dedupFirst_subset _ _ hmem
    simp [List.mem_filter] at hx
termination_by l => l.length
decreasing_by
  simp only [List.length_cons]
  exact Nat.lt_succ_of_le (List.length_filter_le _ _)

/-- Characterization of the `standardize_tags` fold for an arbitrary
accumulator: it appends, to the accumulator, the first-seen de-duplication
of the non-empty normalized tags not already present. -/
lemma foldl_stdStep (l : List String) (acc : List String) :
    l.foldl stdStep acc
      = acc ++ dedupFirst (((l.map normalize_tag).filter
          (fun s => s ≠ "")).filter (fun s => s ∉ acc)) := by
  induction l generalizing acc with
  | nil => simp [dedupFirst]
  | cons t l ih =>
    rw [List.foldl_cons, List.map_cons]
    by_cases h1 : normalize_tag t = ""
    · rw [show stdStep acc t = acc by simp [stdStep, h1]]
      rw [ih acc]
      congr 3
      simp [List.filter_cons, h1]
    · rw [show ((normalize_tag t :: l.map normalize_tag).filter (fun s => s ≠ ""))
          = normalize_tag t :: (l.map normalize_tag).filter (fun s => s ≠ "") by
        simp [List.filter_cons, h1]]
      by_cases h2 : normalize_tag t ∈ acc
      · rw [show stdStep acc t = acc by simp [stdStep, h2]]
        rw [ih acc]
        congr 2
        simp [List.filter_cons, h2]
      · rw [show stdStep acc t = acc ++ [normalize_tag t] by simp [stdStep, h1, h2]]
        rw [ih (acc ++ [normalize_tag t])]
        rw [show ((normalize_tag t
              :: (l.map normalize_tag).filter (fun s => s ≠ "")).filter
              (fun s => s ∉ acc))
            = normalize_tag t
                :: ((l.map normalize_tag).filter (fun s => s ≠ "")).filter
                  (fun s => s ∉ acc) by
          simp [List.filter_cons, h2]]
        rw [dedupFirst]
        rw [List.append_assoc, List.singleton_append]
        congr 2
        rw [List.filter_filter, List.filter_filter, List.filter_filter]
        congr 1
        refine List.filter_congr ?_
        intro x _
        rw [Bool.eq_iff_iff]
        simp only [Bool.and_eq_true, decide_eq_true_eq, List.mem_append,
          List.mem_singleton]
        tauto

/-! ## Claim theorems for tag normalization -/

/-- C1 (counterexample): `normalize_tag` is not idempotent.  The raw tag
`"Todo"` normalizes (by the lowercase fallback) to `"todo"`, which the
synonym table then maps to `"action/todo"` on a second application. -/
theorem normalize_tag_not_idempotent_Todo :
    normalize_tag (normalize_tag "Todo") ≠ normalize_tag "Todo" := by decide

/-- C1 (amended): `normalize_tag` is idempotent on every raw tag whose
whitespace-stripped, `#`-stripped form is a key of the static synonym
table, because every value of that table is a fixed point of
`normalize_tag`. -/
theorem normalize_tag_idem_of_mapped (t v : String)
    (h : lookupL (stripHashL (stripL t.data)) standard_mappings = some v) :
    normalize_tag (normalize_tag t) = normalize_tag t := by
  have ht : normalize_tag t = v := by
    simp [normalize_tag, normCoreL, h]
  rw [ht]
  exact std_values_fixed v (lookupL_mem_values _ _ _ h)

/-- C1 (witness): the amended idempotence theorem applied to the concrete
raw tag `" #AI "`, whose stripped form `"AI"` the table maps to `"ai"`. -/
theorem normalize_tag_idem_of_mapped_witness :
    normalize_tag (normalize_tag " #AI ") = normalize_tag " #AI " :=
  normalize_tag_idem_of_mapped " #AI " "ai" (by decide)

/-- C4: `standardize_tags` returns exactly the first-seen de-duplication of
the normalized input tags with empty results dropped, and that result has
no duplicate entries. -/
theorem standardize_tags_spec (tags : List String) :
    standardize_tags tags
        = dedupFirst ((tags.map normalize_tag).filter (fun s => s ≠ ""))
      ∧ (standardize_tags tags).Nodup := by
  have h := foldl_stdStep tags []
  have hfilter :
      ((tags.map normalize_tag).filter (fun s => s ≠ "")).filter
          (fun s => s ∉ ([] : List String))
        = (tags.map normalize_tag).filter (fun s => s ≠ "") := by
    refine List.filter_eq_self.mpr ?_
    intro x _
    simp
  rw [standardize_tags]
  rw [h, hfilter, List.nil_append]
  exact ⟨rfl, dedupFirst_nodup _⟩

/-- C5 (counterexample): on `["AI", "ai", "Business-Strategy"]` the result
is not `["ai", "business/strategy"]` — the static table has no entry for
`"Business-Strategy"`, so the default lowercase rule applies. -/
theorem standardize_tags_example_ne :
    standardize_tags ["AI", "ai", "Business-Strategy"] ≠ ["ai", "business/strategy"] := by
  decide

/-- C5 (amended): `standardize_tags ["AI", "ai", "Business-Strategy"]`
returns `["ai", "business-strategy"]`: the second entry is deduplicated
against the first after normalization, and `"Business-Strategy"` falls
through the static table to the lowercase/hyphenate fallback. -/
theorem standardize_tags_example_eq :
    standardize_tags ["AI", "ai", "Business-Strategy"] = ["ai", "business-strategy"] := by
  decide

/-! ## tag_standardizer.py — YAML frontmatter

`extract_frontmatter` (lines 136–161) delegates the block between the
`---` delimiter lines to `yaml.safe_load`, and `process_file`
(lines 232–243) re-serializes with `yaml.dump(..., default_flow_style=False,
sort_keys=False)`.  PyYAML is third-party code, so it is modelled here on
the restricted value universe the specification names (strings, lists of
strings, and int/bool scalars) in plain block style: quoting, flow style,
multi-line scalars, comments and anchors are outside the model. -/

/-- A YAML scalar of the restricted universe: plain string, int, or bool. -/
inductive YScalar where
  | ystr (s : String)
  | yint (n : Int)
  | ybool (b : Bool)
deriving DecidableEq

/-- A YAML value of the restricted universe: a scalar or a list of strings. -/
inductive YVal where
  | yscalar (sc : YScalar)
  | ylist (xs : List String)
deriving DecidableEq

/-- An ordered key→value metadata map (Python dict in insertion order). -/
abbrev YMap := List (String × YVal)

/-- A parsed YAML document: a mapping, or a bare (non-mapping) scalar. -/
inductive YDoc where
  | ymap (m : YMap)
  | ydocScalar (s : String)
deriving DecidableEq

/-- The outcome of `yaml.safe_load`: a parse error (exception), the Python
value `None` (e.g. for empty input), or a document. -/
inductive PyYamlResult where
  | perr
  | pnull
  | pdoc (d : YDoc)
deriving DecidableEq

/-- Modelled from PyYAML: plain rendering of a scalar
(`yaml.dump` representer for str/int/bool within the plain subset). -/
def dumpScalar : YScalar → List Char
  | .ystr s => s.data
  | .yint n => (toString n).data
  | .ybool b => if b then "true".data else "false".data

/-- Modelled from PyYAML: the block-style lines of one mapping entry
(`key: value` for scalars, `key:` followed by `- item` lines for lists). -/
def dumpEntryLines : String × YVal → List (List Char)
  | (k, .yscalar sc) => [k.data ++ ':' :: ' ' :: dumpScalar sc]
  | (k, .ylist xs) => (k.data ++ [':']) :: xs.map (fun x => '-' :: ' ' :: x.data)

/-- Modelled from PyYAML: `yaml.dump(m, default_flow_style=False,
sort_keys=False)` for a non-empty map of the restricted universe, as a
character list; every emitted line is terminated by a newline. -/
def yaml_dump (m : YMap) : List Char :=
  (m.flatMap dumpEntryLines).flatMap (fun ln => ln ++ ['\n'])

/-- Find the first `':'` that YAML treats as a key separator (followed by a
space or the end of the line); returns the text before it and, when the
separator is `": "`, the text after it. -/
def splitKeySep : List Char → Option (List Char × Option (List Char))
  | [] => none
  | c :: rest =>
    if c == ':' then
      if rest.isEmpty then some ([], none)
      else if rest.headD ' ' == ' ' then some ([], some rest.tail)
      else (splitKeySep rest).map (fun p => (c :: p.1, p.2))
    else (splitKeySep rest).map (fun p => (c :: p.1, p.2))

/-- `x == "true"`/`"false"` or a decimal integer literal with optional
leading minus sign. -/
def isIntToken (v : List Char) : Bool :=
  match v with
  | '-' :: rest => !rest.isEmpty && rest.all Char.isDigit
  | _ => !v.isEmpty && v.all Char.isDigit

/-- Parse a decimal integer literal (assumes `isIntToken`). -/
def parseIntToken (v : List Char) : Int :=
  match v with
  | '-' :: rest => -(rest.foldl (fun acc c => acc * 10 + (c.toNat - '0'.toNat)) 0 : Nat)
  | _ => (v.foldl (fun acc c => acc * 10 + (c.toNat - '0'.toNat)) 0 : Nat)

/-- Modelled from PyYAML: resolution of a plain scalar token into
bool/int/string (within the restricted universe; `null`, floats, dates and
quoted styles are outside the model). -/
def parseScalarToken (v : List Char) : YScalar :=
  if v == "true".data then .ybool true
  else if v == "false".data then .ybool false
  else if isIntToken v then .yint (parseIntToken v)
  else .ystr ⟨v⟩

/-- Close an open `key:` list: a pending key with no collected items is a
parse error, otherwise the list entry is appended. -/
def flushPending (acc : YMap) : Option (String × List String) → Option YMap
  | none => some acc
  | some (k, items) =>
      if items.isEmpty then none else some (acc ++ [(k, .ylist items)])

/-- One pass of the block-mapping reader: entries accumulated so far, plus
an open `key:` whose `- item` lines are still being collected. -/
def parseYamlLines : List (List Char) → YMap → Option (String × List String) → Option YMap
  | [], acc, pending => flushPending acc pending
  | ln :: rest, acc, pending =>
      if "- ".data.isPrefixOf ln then
        match pending with
        | some (k, items) =>
            parseYamlLines rest acc (some (k, items ++ [⟨stripL (ln.drop 2)⟩]))
        | none => none
      else
        match flushPending acc pending with
        | none => none
        | some acc' =>
          match splitKeySep ln with
          | none => none
          | some (kRaw, none) => parseYamlLines rest acc' (some (⟨stripL kRaw⟩, []))
          | some (kRaw, some vRaw) =>
              let v := stripL vRaw
              if v.isEmpty then none
              else if (splitKeySep v).isSome then none
              else
                parseYamlLines rest
                  (acc' ++ [(⟨stripL kRaw⟩, .yscalar (parseScalarToken v))]) none

/-- Modelled from PyYAML: `yaml.safe_load` on the restricted plain block
subset.  Empty (all-whitespace) input yields Python `None`; a mapping in
block style yields a map; a single plain non-mapping line yields a bare
scalar; everything else is a parse error. -/
def mini_yaml_load (text : List Char) : PyYamlResult :=
  if (stripL text).isEmpty then .pnull
  else
    let lines := splitOnCharL '\n' text
    match parseYamlLines lines [] none with
    | some m => .pdoc (.ymap m)
    | none =>
      match lines with
      | [ln] =>
          if "- ".data.isPrefixOf ln || (splitKeySep ln).isSome then .perr
          else .pdoc (.ydocScalar ⟨stripL ln⟩)
      | _ => .perr

/-- Index (counting from the start of the given list) of the first line
whose stripped form is `---`. -/
def findDashIdx : List (List Char) → Option Nat
  | [] => none
  | ln :: rest =>
      if stripL ln == "---".data then some 0
      else (findDashIdx rest).map (· + 1)

/-- `TagStandardizer.extract_frontmatter` (tag_standardizer.py lines
136–161): detect the opening delimiter, scan forward from line 1 for the
closing delimiter, `yaml.safe_load` the enclosed lines, and fail soft by
returning `(None, content)` when the delimiter is missing or loading
raises. -/
def extract_frontmatter (content : String) : Option YDoc × String :=
  if !("---".data.isPrefixOf (stripL content.data)) then (none, content)
  else
    let lines := splitOnCharL '\n' content.data
    if lines.length < 3 then (none, content)
    else
      match (findDashIdx lines.tail).map (· + 1) with
      | none => (none, content)
      | some endIdx =>
        let fmText := joinSepL '\n' ((lines.take endIdx).drop 1)
        let remaining : String := ⟨joinSepL '\n' (lines.drop (endIdx + 1))⟩
        match mini_yaml_load fmText with
        | .perr => (none, content)
        | .pnull => (none, remaining)
        | .pdoc d => (some d, remaining)

/-- `TagStandardizer.process_file` (tag_standardizer.py line 239):
`new_content = f"---\n{new_frontmatter}---\n{remaining_content}"` — the
serialized form of a metadata map followed by a body. -/
def serialize_frontmatter (m : YMap) (body : String) : String :=
  ⟨"---\n".data ++ yaml_dump m ++ "---\n".data ++ body.data⟩

example : extract_frontmatter "---\ntags:\n- a\n- b\ntype: note\n---\nbody"
    = (some (.ymap [("tags", .ylist ["a", "b"]), ("type", .yscalar (.ystr "note"))]), "body") := by
  decide

example : serialize_frontmatter [("tags", .ylist ["a", "b"]), ("type", .yscalar (.ystr "note"))]
      "body" = "---\ntags:\n- a\n- b\ntype: note\n---\nbody" := by decide

example : extract_frontmatter "---\nhello\n---\nrest" = (some (.ydocScalar "hello"), "rest") := by
  decide

example : extract_frontmatter "---\n---\nrest" = (none, "rest") := by decide

example : extract_frontmatter "---\nno closing delimiter" = (none, "---\nno closing delimiter") := by
  decide

example : extract_frontmatter "---\na: b: c\n---\nrest" = (none, "---\na: b: c\n---\nrest") := by
  decide

/-! ## Well-formedness of metadata maps (the spec's "well-formed")

A map round-trips when its keys and values are plain YAML tokens: rendered
and re-read without quoting or re-interpretation. -/

/-- A character that may appear in a plain token: a space, or any
non-whitespace character other than `:` and `#`. -/
def plainChar (c : Char) : Bool :=
  c == ' ' || (!c.isWhitespace && !(c == ':') && !(c == '#'))

/-- A plain scalar token: non-empty, only plain characters, no leading or
trailing space, and not starting with `-`. -/
def plainToken (v : List Char) : Bool :=
  !v.isEmpty && v.all plainChar && !(v.headD ' ' == ' ') && !(v.headD ' ' == '-') &&
    !(v.getLastD ' ' == ' ')

/-- A plain mapping key: non-empty, plain characters with no spaces at all,
and not starting with `-`. -/
def plainKey (v : List Char) : Bool :=
  !v.isEmpty && v.all (fun c => plainChar c && !(c == ' ')) && !(v.headD ' ' == '-')

/-- Well-formedness of one metadata entry: the key is plain; a scalar value
renders as a plain token that resolves back to itself; a list value is
non-empty and all items are plain tokens that resolve back to themselves
as strings. -/
def wfEntry : String × YVal → Bool
  | (k, .yscalar sc) =>
      plainKey k.data && plainToken (dumpScalar sc) &&
        (parseScalarToken (dumpScalar sc) == sc)
  | (k, .ylist xs) =>
      plainKey k.data && !xs.isEmpty &&
        xs.all (fun x => plainToken x.data && (parseScalarToken x.data == .ystr x))

/-! ## Infrastructure lemmas: strip, split and join -/

/-- Right strip (trailing whitespace removal), the second half of
`stripL`. -/
def rstripL (l : List Char) : List Char :=
  (l.reverse.dropWhile Char.isWhitespace).reverse

lemma stripL_eq_rstripL (l : List Char)
    (h : ∀ c, l.head? = some c → ¬c.isWhitespace) : stripL l = rstripL l := by
  cases l with
  | nil => rfl
  | cons c t =>
    have hc : ¬c.isWhitespace := h c rfl
    simp only [stripL, rstripL, List.dropWhile_cons]
    rw [if_neg (by simpa using hc)]

lemma dropWhile_eq_self_of_head (p : Char → Bool) (l : List Char)
    (h : ∀ c, l.head? = some c → p c = false) : l.dropWhile p = l := by
  cases l with
  | nil => rfl
  | cons c t =>
    simp only [List.dropWhile_cons]
    rw [if_neg (by simp [h c rfl])]

lemma rstripL_eq_self (l : List Char)
    (h : ∀ c, l.getLast? = some c → ¬c.isWhitespace) : rstripL l = l := by
  unfold rstripL
  rw [dropWhile_eq_self_of_head _ _ (by
    intro c hc
    rw [List.head?_reverse] at hc
    simp [h c hc])]
  exact l.reverse_reverse

/-- A token with non-whitespace first and last characters is unchanged by
`stripL`. -/
lemma stripL_eq_self (l : List Char)
    (hh : ∀ c, l.head? = some c → ¬c.isWhitespace)
    (hl : ∀ c, l.getLast? = some c → ¬c.isWhitespace) : stripL l = l := by
  rw [stripL_eq_rstripL l hh, rstripL_eq_self l hl]

lemma dropWhile_ne_nil_of_mem {p : Char → Bool} {l : List Char} {c : Char}
    (hc : c ∈ l) (hp : p c = false) : l.dropWhile p ≠ [] := by
  induction l with
  | nil => cases hc
  | cons a t ih =>
    rw [List.dropWhile_cons]
    rcases List.mem_cons.mp hc with h | h
    · subst h; rw [if_neg (by simp [hp])]; simp
    · by_cases ha : p a = true
      · rw [if_pos ha]; exact ih h
      · rw [if_neg ha]; simp

/-- Trailing strip does not reach a prefix that is followed by some
non-whitespace character. -/
lemma rstripL_append {p r : List Char} {c : Char} (hc : c ∈ r)
    (hw : ¬c.isWhitespace) : rstripL (p ++ r) = p ++ rstripL r := by
  unfold rstripL
  rw [List.reverse_append, List.dropWhile_append]
  rw [if_neg (by
    simp only [List.isEmpty_iff]
    exact dropWhile_ne_nil_of_mem (by simpa using hc) (by simpa using hw))]
  simp

lemma splitOnCharL_ne_nil (sep : Char) (l : List Char) : splitOnCharL sep l ≠ [] := by
  induction l with
  | nil => simp [splitOnCharL]
  | cons c t ih =>
    rw [splitOnCharL]
    cases h : splitOnCharL sep t with
    | nil => exact absurd h ih
    | cons g gs =>
      by_cases hc : c == sep
      · simp [hc]
      · simp [hc]

/-- A separator-free list splits into itself. -/
lemma splitOnCharL_of_not_mem {sep : Char} {l : List Char} (h : sep ∉ l) :
    splitOnCharL sep l = [l] := by
  induction l with
  | nil => rfl
  | cons c t ih =>
    have hc : ¬(c == sep) = true := by
      simp only [beq_iff_eq]
      rintro rfl
      exact h (List.mem_cons_self _ _)
    rw [splitOnCharL, ih (fun hm => h (List.mem_cons_of_mem _ hm))]
    show (if (c == sep) = true then ([] : List Char) :: t :: [] else (c :: t) :: []) = [c :: t]
    rw [if_neg hc]

/-- Splitting past a separator-free prefix. -/
lemma splitOnCharL_append_sep {sep : Char} {w : List Char} (r : List Char)
    (h : sep ∉ w) : splitOnCharL sep (w ++ sep :: r) = w :: splitOnCharL sep r := by
  induction w with
  | nil =>
    rw [List.nil_append, splitOnCharL]
    cases hs : splitOnCharL sep r with
    | nil => exact absurd hs (splitOnCharL_ne_nil sep r)
    | cons g gs => simp
  | cons c t ih =>
    have hc : ¬(c == sep) = true := by
      simp only [beq_iff_eq]
      rintro rfl
      exact h (List.mem_cons_self _ _)
    rw [List.cons_append, splitOnCharL,
      ih (fun hm => h (List.mem_cons_of_mem _ hm))]
    show (if (c == sep) = true then ([] : List Char) :: t :: splitOnCharL sep r
        else (c :: t) :: splitOnCharL sep r) = (c :: t) :: splitOnCharL sep r
    rw [if_neg hc]

/-- `join` is a left inverse of `split`. -/
lemma joinSepL_splitOnCharL (sep : Char) (l : List Char) :
    joinSepL sep (splitOnCharL sep l) = l := by
  induction l with
  | nil => rfl
  | cons c t ih =>
    rw [splitOnCharL]
    cases hs : splitOnCharL sep t with
    | nil => exact absurd hs (splitOnCharL_ne_nil sep t)
    | cons g gs =>
      rw [hs] at ih
      show joinSepL sep
          (if (c == sep) = true then [] :: g :: gs else (c :: g) :: gs) = c :: t
      by_cases hc : (c == sep) = true
      · have hceq : c = sep := beq_iff_eq.mp hc
        rw [if_pos hc, hceq]
        show joinSepL sep ([] :: g :: gs) = sep :: t
        rw [joinSepL, List.flatMap_cons, List.nil_append, List.cons_append]
        rw [show g ++ gs.flatMap (fun q => sep :: q) = joinSepL sep (g :: gs) from rfl, ih]
      · rw [if_neg hc]
        show joinSepL sep ((c :: g) :: gs) = c :: t
        rw [joinSepL, List.cons_append]
        rw [show g ++ gs.flatMap (fun q => sep :: q) = joinSepL sep (g :: gs) from rfl, ih]

/-- `split` is a left inverse of `join` on non-empty lists of
separator-free lines. -/
lemma splitOnCharL_joinSepL (sep : Char) (L : List (List Char)) (hne : L ≠ [])
    (h : ∀ ln ∈ L, sep ∉ ln) : splitOnCharL sep (joinSepL sep L) = L := by
  induction L with
  | nil => exact absurd rfl hne
  | cons x xs ih =>
    cases xs with
    | nil =>
      rw [joinSepL]
      simpa using splitOnCharL_of_not_mem (h x (List.mem_cons_self _ _))
    | cons y ys =>
      have hx : sep ∉ x := h x (List.mem_cons_self _ _)
      have hjoin : joinSepL sep (x :: y :: ys) = x ++ sep :: joinSepL sep (y :: ys) := by
        simp [joinSepL]
      rw [hjoin, splitOnCharL_append_sep _ hx,
        ih (by simp) (fun ln hln => h ln (List.mem_cons_of_mem _ hln))]

/-! ## Properties of plain tokens and keys -/

lemma plainChar_spec {c : Char} (h : plainChar c = true) (hs : c ≠ ' ') :
    c.isWhitespace = false ∧ c ≠ ':' ∧ c ≠ '#' := by
  simp only [plainChar, Bool.or_eq_true, Bool.and_eq_true, beq_iff_eq,
    Bool.not_eq_true', beq_eq_false_iff_ne] at h
  rcases h with h | h
  · exact absurd h hs
  · exact ⟨h.1.1, h.1.2, h.2⟩

lemma plainToken_props {v : List Char} (h : plainToken v = true) :
    v ≠ [] ∧ (∀ c ∈ v, plainChar c = true) ∧
      (∀ c, v.head? = some c → c.isWhitespace = false ∧ c ≠ '-') ∧
      (∀ c, v.getLast? = some c → c.isWhitespace = false) := by
  simp only [plainToken, Bool.and_eq_true, Bool.not_eq_true', List.all_eq_true,
    beq_eq_false_iff_ne] at h
  obtain ⟨⟨⟨⟨hne, hall⟩, hh1⟩, hh2⟩, hl⟩ := h
  have hne' : v ≠ [] := by
    intro hv; rw [hv] at hne; simp at hne
  refine ⟨hne', hall, ?_, ?_⟩
  · intro c hc
    have hcv : c ∈ v := by
      cases v with
      | nil => simp at hc
      | cons a t =>
        have : a = c := by simpa using hc
        simp [← this]
    have hcd : v.headD ' ' = c := by
      cases v with
      | nil => simp at hc
      | cons a t => simpa using hc
    rw [hcd] at hh1 hh2
    exact ⟨(plainChar_spec (hall c hcv) hh1).1, hh2⟩
  · intro c hc
    have hcv : c ∈ v := List.mem_of_mem_getLast? hc
    have hcd : v.getLastD ' ' = c := by
      rw [List.getLastD_eq_getLast? _ v, hc]; rfl
    rw [hcd] at hl
    exact (plainChar_spec (hall c hcv) hl).1

lemma plainKey_props {v : List Char} (h : plainKey v = true) :
    v ≠ [] ∧ (∀ c ∈ v, c.isWhitespace = false ∧ c ≠ ':' ∧ c ≠ '#') ∧
      (∀ c, v.head? = some c → c ≠ '-') := by
  simp only [plainKey, Bool.and_eq_true, Bool.not_eq_true', List.all_eq_true,
    beq_eq_false_iff_ne] at h
  obtain ⟨⟨hne, hall⟩, hh⟩ := h
  have hne' : v ≠ [] := by
    intro hv; rw [hv] at hne; simp at hne
  refine ⟨hne', ?_, ?_⟩
  · intro c hc
    obtain ⟨h1, hcs⟩ := hall c hc
    exact plainChar_spec h1 hcs
  · intro c hc
    have hcd : v.headD ' ' = c := by
      cases v with
      | nil => simp at hc
      | cons a t => simpa using hc
    rw [hcd] at hh
    exact hh

/-! ## Properties of `splitKeySep` -/

lemma splitKeySep_no_colon {l : List Char} (h : ∀ c ∈ l, c ≠ ':') :
    splitKeySep l = none := by
  induction l with
  | nil => rfl
  | cons c t ih =>
    rw [splitKeySep]
    rw [if_neg (by simpa using h c (List.mem_cons_self _ _))]
    rw [ih (fun d hd => h d (List.mem_cons_of_mem _ hd))]
    rfl

lemma splitKeySep_key_val (k t : List Char) (hk : ∀ c ∈ k, c ≠ ':') :
    splitKeySep (k ++ ':' :: ' ' :: t) = some (k, some t) := by
  induction k with
  | nil =>
    rw [List.nil_append, splitKeySep]
    rw [if_pos (by simp)]
    rw [if_neg (by simp)]
    rw [if_pos (by simp)]
    rfl
  | cons c k' ih =>
    rw [List.cons_append, splitKeySep]
    rw [if_neg (by simpa using hk c (List.mem_cons_self _ _))]
    rw [ih (fun d hd => hk d (List.mem_cons_of_mem _ hd))]
    rfl

lemma splitKeySep_key_eol (k : List Char) (hk : ∀ c ∈ k, c ≠ ':') :
    splitKeySep (k ++ [':']) = some (k, none) := by
  induction k with
  | nil =>
    rw [List.nil_append, splitKeySep]
    rw [if_pos (by simp)]
    rw [if_pos (by simp)]
  | cons c k' ih =>
    rw [List.cons_append, splitKeySep]
    rw [if_neg (by simpa using hk c (List.mem_cons_self _ _))]
    rw [ih (fun d hd => hk d (List.mem_cons_of_mem _ hd))]
    rfl

/-! ## Extraction lemmas for entry well-formedness -/

lemma wfEntry_scalar {k : String} {sc : YScalar}
    (h : wfEntry (k, .yscalar sc) = true) :
    plainKey k.data = true ∧ plainToken (dumpScalar sc) = true ∧
      parseScalarToken (dumpScalar sc) = sc := by
  simp only [wfEntry, Bool.and_eq_true, beq_iff_eq] at h
  exact ⟨h.1.1, h.1.2, h.2⟩

lemma wfEntry_list {k : String} {xs : List String}
    (h : wfEntry (k, .ylist xs) = true) :
    plainKey k.data = true ∧ xs ≠ [] ∧
      ∀ x ∈ xs, plainToken x.data = true ∧ parseScalarToken x.data = .ystr x := by
  simp only [wfEntry, Bool.and_eq_true, Bool.not_eq_true', List.all_eq_true,
    beq_iff_eq] at h
  refine ⟨h.1.1, ?_, h.2⟩
  intro hxs
  rw [hxs] at h
  simp at h

/-! ## Facts about dumped lines -/

lemma not_item_prefix {l : List Char} (h : ∀ c, l.head? = some c → c ≠ '-') :
    "- ".data.isPrefixOf l = false := by
  cases l with
  | nil => rfl
  | cons c t =>
    have hc : ('-' == c) = false := by
      simpa using (Ne.symm (h c rfl))
    show (('-' == c) && ((' ' :: []).isPrefixOf t)) = false
    rw [hc]
    rfl

/-- A line that begins with a well-formed key does not look like a list
item. -/
lemma key_line_not_item {k : String} (hk : plainKey k.data = true) (X : List Char) :
    "- ".data.isPrefixOf (k.data ++ X) = false := by
  obtain ⟨hkne, _, hkhead⟩ := plainKey_props hk
  obtain ⟨c, k', hkd⟩ := List.exists_cons_of_ne_nil hkne
  apply not_item_prefix
  intro c' hc'
  rw [hkd] at hc'
  have hcc : c = c' := by simpa using hc'
  subst hcc
  exact hkhead c (by rw [hkd]; rfl)

/-- A well-formed key is unchanged by stripping and re-packing. -/
lemma stripL_key {k : String} (hk : plainKey k.data = true) :
    (⟨stripL k.data⟩ : String) = k := by
  obtain ⟨hkne, hkchars, _⟩ := plainKey_props hk
  have hs : stripL k.data = k.data := by
    apply stripL_eq_self
    · intro c hc
      have hm : c ∈ k.data := by
        cases hkd : k.data with
        | nil => rw [hkd] at hc; simp at hc
        | cons a t =>
          rw [hkd] at hc
          have : a = c := by simpa using hc
          simp [← this]
      simp [(hkchars c hm).1]
    · intro c hc
      have hm : c ∈ k.data := List.mem_of_mem_getLast? hc
      simp [(hkchars c hm).1]
  rw [hs]

/-- A plain token is unchanged by stripping. -/
lemma stripL_token {v : List Char} (hv : plainToken v = true) : stripL v = v := by
  obtain ⟨hne, hall, hhead, hlast⟩ := plainToken_props hv
  apply stripL_eq_self
  · intro c hc
    simp [(hhead c hc).1]
  · intro c hc
    simp [hlast c hc]

lemma token_no_colon {v : List Char} (hv : plainToken v = true) :
    ∀ c ∈ v, c ≠ ':' := by
  intro c hc
  rintro rfl
  have := (plainToken_props hv).2.1 ':' hc
  exact absurd this (by decide)

lemma token_no_newline {v : List Char} (hv : plainToken v = true) : '\n' ∉ v := by
  intro hm
  have := (plainToken_props hv).2.1 '\n' hm
  exact absurd this (by decide)

lemma key_no_colon {k : String} (hk : plainKey k.data = true) :
    ∀ c ∈ k.data, c ≠ ':' := by
  intro c hc
  exact ((plainKey_props hk).2.1 c hc).2.1

lemma key_no_newline {k : String} (hk : plainKey k.data = true) : '\n' ∉ k.data := by
  intro hm
  have := ((plainKey_props hk).2.1 '\n' hm).1
  exact absurd this (by decide)

/-- Every line a well-formed entry dumps is newline-free and does not strip
to the closing delimiter. -/
lemma entry_lines_facts {e : String × YVal} (h : wfEntry e = true) :
    ∀ ln ∈ dumpEntryLines e, ('\n' ∉ ln) ∧ stripL ln ≠ "---".data := by
  obtain ⟨k, v⟩ := e
  cases v with
  | yscalar sc =>
    obtain ⟨hk, hv, _⟩ := wfEntry_scalar h
    intro ln hln
    have hl : ln = k.data ++ ':' :: ' ' :: dumpScalar sc := by
      simpa [dumpEntryLines] using hln
    subst hl
    have hds_ne : dumpScalar sc ≠ [] := (plainToken_props hv).1
    have hstrip : stripL (k.data ++ ':' :: ' ' :: dumpScalar sc)
        = k.data ++ ':' :: ' ' :: dumpScalar sc := by
      apply stripL_eq_self
      · intro c hc
        obtain ⟨c0, k', hkd⟩ := List.exists_cons_of_ne_nil (plainKey_props hk).1
        rw [hkd] at hc
        have hc0 : c0 = c := by simpa using hc
        subst hc0
        have hm : c0 ∈ k.data := by rw [hkd]; exact List.mem_cons_self _ _
        simp [((plainKey_props hk).2.1 c0 hm).1]
      · intro c hc
        rw [List.append_cons, List.append_cons,
          List.getLast?_append_of_ne_nil _ hds_ne] at hc
        simp [(plainToken_props hv).2.2.2 c hc]
    refine ⟨?_, ?_⟩
    · intro hm
      rcases List.mem_append.mp hm with hm | hm
      · exact key_no_newline hk hm
      · rcases List.mem_cons.mp hm with h1 | hm
        · exact absurd h1 (by decide)
        rcases List.mem_cons.mp hm with h1 | hm
        · exact absurd h1 (by decide)
        · exact token_no_newline hv hm
    · rw [hstrip]
      intro heq
      have hcolon : ':' ∈ k.data ++ ':' :: ' ' :: dumpScalar sc :=
        List.mem_append_right _ (List.mem_cons_self _ _)
      rw [heq] at hcolon
      simp at hcolon
  | ylist xs =>
    obtain ⟨hk, hxne, hxs⟩ := wfEntry_list h
    intro ln hln
    rw [dumpEntryLines] at hln
    rcases List.mem_cons.mp hln with hl | hl
    · subst hl
      have hstrip : stripL (k.data ++ [':']) = k.data ++ [':'] := by
        apply stripL_eq_self
        · intro c hc
          obtain ⟨c0, k', hkd⟩ := List.exists_cons_of_ne_nil (plainKey_props hk).1
          rw [hkd] at hc
          have hc0 : c0 = c := by simpa using hc
          subst hc0
          have hm : c0 ∈ k.data := by rw [hkd]; exact List.mem_cons_self _ _
          simp [((plainKey_props hk).2.1 c0 hm).1]
        · intro c hc
          rw [List.getLast?_append_of_ne_nil _ (by simp)] at hc
          have : ':' = c := by simpa using hc
          simp [← this]
      refine ⟨?_, ?_⟩
      · intro hm
        rcases List.mem_append.mp hm with hm | hm
        · exact key_no_newline hk hm
        · simp at hm
      · rw [hstrip]
        intro heq
        have hcolon : ':' ∈ k.data ++ [':'] :=
          List.mem_append_right _ (List.mem_cons_self _ _)
        rw [heq] at hcolon
        simp at hcolon
    · obtain ⟨x, hx, hlx⟩ := List.mem_map.mp hl
      obtain ⟨hpt, _⟩ := hxs x hx
      subst hlx
      have hxne' : x.data ≠ [] := (plainToken_props hpt).1
      have hstrip : stripL ('-' :: ' ' :: x.data) = '-' :: ' ' :: x.data := by
        apply stripL_eq_self
        · intro c hc
          have : '-' = c := by simpa using hc
          simp [← this]
        · intro c hc
          obtain ⟨y, t, hxd⟩ := List.exists_cons_of_ne_nil hxne'
          rw [hxd, List.getLast?_cons_cons, List.getLast?_cons_cons] at hc
          rw [← hxd] at hc
          simp [(plainToken_props hpt).2.2.2 c hc]
      refine ⟨?_, ?_⟩
      · intro hm
        rcases List.mem_cons.mp hm with h1 | hm
        · exact absurd h1 (by decide)
        rcases List.mem_cons.mp hm with h1 | hm
        · exact absurd h1 (by decide)
        · exact token_no_newline hpt hm
      · rw [hstrip]
        intro heq
        rw [show ("---".data : List Char) = ['-', '-', '-'] from rfl] at heq
        simp at heq

lemma dump_lines_facts {m : YMap} (hwf : ∀ e ∈ m, wfEntry e = true) :
    ∀ ln ∈ m.flatMap dumpEntryLines, ('\n' ∉ ln) ∧ stripL ln ≠ "---".data := by
  intro ln hln
  obtain ⟨e, he, hle⟩ := List.mem_flatMap.mp hln
  exact entry_lines_facts (hwf e he) ln hle

/-- `findDashIdx` finds the closing delimiter right after the dumped
lines. -/
lemma findDashIdx_append (L : List (List Char)) (rest : List (List Char))
    (hL : ∀ ln ∈ L, stripL ln ≠ "---".data) :
    findDashIdx (L ++ ("---".data :: rest)) = some L.length := by
  induction L with
  | nil =>
    rw [List.nil_append, findDashIdx]
    rw [if_pos (by decide)]
    rfl
  | cons x xs ih =>
    rw [List.cons_append, findDashIdx]
    rw [if_neg (by
      simp only [beq_iff_eq]
      exact hL x (List.mem_cons_self _ _))]
    rw [ih (fun ln hln => hL ln (List.mem_cons_of_mem _ hln))]
    rfl

/-! ## Step lemmas for `parseYamlLines` -/

/-- Reading a well-formed `key: value` line with no pending list. -/
lemma parseYamlLines_scalar_step {ln : List Char} {rest : List (List Char)} {acc : YMap}
    {kRaw vRaw : List Char}
    (hni : "- ".data.isPrefixOf ln = false)
    (hsp : splitKeySep ln = some (kRaw, some vRaw))
    (hv1 : (stripL vRaw).isEmpty = false)
    (hv2 : splitKeySep (stripL vRaw) = none) :
    parseYamlLines (ln :: rest) acc none
      = parseYamlLines rest
          (acc ++ [(⟨stripL kRaw⟩, .yscalar (parseScalarToken (stripL vRaw)))]) none := by
  rw [parseYamlLines, if_neg (by simp [hni]), hsp]
  show (if (stripL vRaw).isEmpty = true then none
      else if (splitKeySep (stripL vRaw)).isSome = true then none
      else parseYamlLines rest
        (acc ++ [(⟨stripL kRaw⟩, .yscalar (parseScalarToken (stripL vRaw)))]) none)
    = parseYamlLines rest
        (acc ++ [(⟨stripL kRaw⟩, .yscalar (parseScalarToken (stripL vRaw)))]) none
  rw [if_neg (by simp [hv1]), if_neg (by simp [hv2])]

/-- Reading a well-formed `key:` line (opening a list) with no pending
list. -/
lemma parseYamlLines_keyline_step {ln : List Char} {rest : List (List Char)} {acc : YMap}
    {kRaw : List Char}
    (hni : "- ".data.isPrefixOf ln = false)
    (hsp : splitKeySep ln = some (kRaw, none)) :
    parseYamlLines (ln :: rest) acc none
      = parseYamlLines rest acc (some (⟨stripL kRaw⟩, [])) := by
  rw [parseYamlLines, if_neg (by simp [hni]), hsp]
  rfl

/-- Consuming a block of `- item` lines extends the pending list. -/
lemma parseYaml_items : ∀ (xs : List String) (k : String) (its : List String)
    (rest : List (List Char)) (acc : YMap),
    (∀ x ∈ xs, plainToken x.data = true) →
    parseYamlLines ((xs.map (fun x => '-' :: ' ' :: x.data)) ++ rest) acc (some (k, its))
      = parseYamlLines rest acc (some (k, its ++ xs))
  | [], k, its, rest, acc, _ => by simp
  | x :: xs, k, its, rest, acc, hxs => by
    have hpt : plainToken x.data = true := hxs x (List.mem_cons_self _ _)
    rw [List.map_cons, List.cons_append, parseYamlLines]
    rw [if_pos (by simp [List.isPrefixOf])]
    have hitem : (⟨stripL (('-' :: ' ' :: x.data).drop 2)⟩ : String) = x := by
      rw [show ('-' :: ' ' :: x.data).drop 2 = x.data from rfl, stripL_token hpt]
    rw [hitem]
    rw [parseYaml_items xs k (its ++ [x]) rest acc
      (fun y hy => hxs y (List.mem_cons_of_mem _ hy))]
    rw [List.append_assoc, List.singleton_append]

/-- Closing a non-empty pending list at the end of input or before a
non-item line. -/
lemma parseYaml_flush (rest : List (List Char)) (acc : YMap) (k : String)
    (xs : List String) (hxs : xs ≠ [])
    (hrest : rest = [] ∨ ∃ ln rs, rest = ln :: rs ∧ "- ".data.isPrefixOf ln = false) :
    parseYamlLines rest acc (some (k, xs))
      = parseYamlLines rest (acc ++ [(k, .ylist xs)]) none := by
  have hxe : xs.isEmpty = false := by simpa [List.isEmpty_iff] using hxs
  rcases hrest with rfl | ⟨ln, rs, rfl, hln⟩
  · show (if xs.isEmpty = true then none else some (acc ++ [(k, .ylist xs)]))
        = flushPending (acc ++ [(k, .ylist xs)]) none
    rw [if_neg (by simp [hxe])]
    rfl
  · rw [parseYamlLines]
    conv_rhs => rw [parseYamlLines]
    rw [if_neg (by simp [hln]), if_neg (by simp [hln])]
    rw [show flushPending acc (some (k, xs)) = some (acc ++ [(k, .ylist xs)]) by
      show (if xs.isEmpty = true then none else some (acc ++ [(k, .ylist xs)]))
          = some (acc ++ [(k, .ylist xs)])
      rw [if_neg (by simp [hxe])]]
    rfl

/-- The dump of a well-formed map is either empty or starts with a key
line, never with an item line. -/
lemma dump_rest_shape (m : YMap) (h : ∀ e ∈ m, wfEntry e = true) :
    m.flatMap dumpEntryLines = [] ∨
      ∃ ln rs, m.flatMap dumpEntryLines = ln :: rs ∧
        "- ".data.isPrefixOf ln = false := by
  cases m with
  | nil => left; rfl
  | cons e m' =>
    right
    obtain ⟨k, v⟩ := e
    cases v with
    | yscalar sc =>
      have hk := (wfEntry_scalar (h _ (List.mem_cons_self _ _))).1
      exact ⟨k.data ++ ':' :: ' ' :: dumpScalar sc, m'.flatMap dumpEntryLines,
        by rw [List.flatMap_cons, dumpEntryLines]; rfl, key_line_not_item hk _⟩
    | ylist xs =>
      have hk := (wfEntry_list (h _ (List.mem_cons_self _ _))).1
      exact ⟨k.data ++ [':'],
        xs.map (fun x => '-' :: ' ' :: x.data) ++ m'.flatMap dumpEntryLines,
        by rw [List.flatMap_cons, dumpEntryLines]; rfl, key_line_not_item hk _⟩

/-- Parsing the dumped lines of a well-formed map recovers the map. -/
lemma parseYaml_dump : ∀ (m : YMap) (acc : YMap),
    (∀ e ∈ m, wfEntry e = true) →
    parseYamlLines (m.flatMap dumpEntryLines) acc none = some (acc ++ m)
  | [], acc, _ => by simp [parseYamlLines, flushPending]
  | (k, .yscalar sc) :: m', acc, hwf => by
    obtain ⟨hk, hv, hps⟩ := wfEntry_scalar (hwf _ (List.mem_cons_self _ _))
    have hwf' : ∀ e ∈ m', wfEntry e = true := fun e he => hwf e (List.mem_cons_of_mem _ he)
    have hds := stripL_token hv
    rw [List.flatMap_cons, dumpEntryLines, List.singleton_append]
    rw [parseYamlLines_scalar_step (key_line_not_item hk _)
      (splitKeySep_key_val _ _ (key_no_colon hk))
      (by rw [hds]; simpa [List.isEmpty_iff] using (plainToken_props hv).1)
      (by rw [hds]; exact splitKeySep_no_colon (token_no_colon hv))]
    rw [hds, stripL_key hk, hps]
    rw [parseYaml_dump m' _ hwf']
    simp
  | (k, .ylist xs) :: m', acc, hwf => by
    obtain ⟨hk, hxne, hxs⟩ := wfEntry_list (hwf _ (List.mem_cons_self _ _))
    have hwf' : ∀ e ∈ m', wfEntry e = true := fun e he => hwf e (List.mem_cons_of_mem _ he)
    rw [List.flatMap_cons, dumpEntryLines, List.cons_append]
    rw [parseYamlLines_keyline_step (key_line_not_item hk _)
      (splitKeySep_key_eol _ (key_no_colon hk))]
    rw [stripL_key hk]
    rw [parseYaml_items xs k [] _ acc (fun x hx => (hxs x hx).1)]
    rw [List.nil_append]
    rw [parseYaml_flush _ acc k xs hxne (dump_rest_shape m' hwf')]
    rw [parseYaml_dump m' _ hwf']
    simp

/-! ## Structure of the serialized document -/

/-- PyYAML terminates every emitted line with a newline; over non-empty
line lists this is `join` with a trailing newline. -/
lemma flatMapNl_eq (L : List (List Char)) (hne : L ≠ []) :
    L.flatMap (fun ln => ln ++ ['\n']) = joinSepL '\n' L ++ ['\n'] := by
  induction L with
  | nil => exact absurd rfl hne
  | cons x xs ih =>
    cases xs with
    | nil => simp [joinSepL]
    | cons y ys =>
      rw [List.flatMap_cons, ih (by simp)]
      rw [show joinSepL '\n' (x :: y :: ys) = x ++ '\n' :: joinSepL '\n' (y :: ys) by
        simp [joinSepL]]
      simp

/-- Splitting a joined block followed by a separator and arbitrary rest. -/
lemma splitOnCharL_joinSepL_append (sep : Char) :
    ∀ (L : List (List Char)) (r : List Char), (∀ ln ∈ L, sep ∉ ln) →
      L ≠ [] →
      splitOnCharL sep (joinSepL sep L ++ sep :: r) = L ++ splitOnCharL sep r
  | [], _, _, hne => absurd rfl hne
  | [x], r, hfree, _ => by
    rw [show joinSepL sep [x] = x by simp [joinSepL]]
    rw [splitOnCharL_append_sep _ (hfree x (List.mem_cons_self _ _))]
    rfl
  | x :: y :: ys, r, hfree, _ => by
    rw [show joinSepL sep (x :: y :: ys) = x ++ sep :: joinSepL sep (y :: ys) by
      simp [joinSepL]]
    rw [List.append_assoc, List.cons_append]
    rw [splitOnCharL_append_sep _ (hfree x (List.mem_cons_self _ _))]
    rw [splitOnCharL_joinSepL_append sep (y :: ys) r
      (fun ln h => hfree ln (List.mem_cons_of_mem _ h)) (by simp)]
    rfl

/-- A dumped well-formed non-empty map starts with a line whose first
character is a non-whitespace, non-dash key character. -/
lemma dump_head_char (m : YMap) (hm : m ≠ []) (hwf : ∀ e ∈ m, wfEntry e = true) :
    ∃ c ln' rs, m.flatMap dumpEntryLines = (c :: ln') :: rs ∧
      c.isWhitespace = false ∧ c ≠ '-' := by
  cases m with
  | nil => exact absurd rfl hm
  | cons e m' =>
    obtain ⟨k, v⟩ := e
    have hk : plainKey k.data = true := by
      cases v with
      | yscalar sc => exact (wfEntry_scalar (hwf _ (List.mem_cons_self _ _))).1
      | ylist xs => exact (wfEntry_list (hwf _ (List.mem_cons_self _ _))).1
    obtain ⟨hkne, hkchars, hkhead⟩ := plainKey_props hk
    obtain ⟨c, k', hkd⟩ := List.exists_cons_of_ne_nil hkne
    have hcws : c.isWhitespace = false :=
      (hkchars c (by rw [hkd]; exact List.mem_cons_self _ _)).1
    have hcd : c ≠ '-' := hkhead c (by rw [hkd]; rfl)
    cases v with
    | yscalar sc =>
      refine ⟨c, k' ++ ':' :: ' ' :: dumpScalar sc, m'.flatMap dumpEntryLines, ?_, hcws, hcd⟩
      rw [List.flatMap_cons, dumpEntryLines, hkd]
      rfl
    | ylist xs =>
      refine ⟨c, k' ++ [':'],
        xs.map (fun x => '-' :: ' ' :: x.data) ++ m'.flatMap dumpEntryLines, ?_, hcws, hcd⟩
      rw [List.flatMap_cons, dumpEntryLines, hkd]
      rfl

/-- Stripping a list with a non-whitespace head is non-empty. -/
lemma stripL_cons_ne_nil {c : Char} {t : List Char} (hc : c.isWhitespace = false) :
    stripL (c :: t) ≠ [] := by
  rw [stripL_eq_rstripL _ (fun c' hc' => by
    have hcc : c = c' := by simpa using hc'
    rw [← hcc]
    simp [hc])]
  unfold rstripL
  intro h
  have h2 : (c :: t).reverse.dropWhile Char.isWhitespace = [] := by
    simpa using h
  exact dropWhile_ne_nil_of_mem (l := (c :: t).reverse) (c := c) (by simp) hc h2

/-- Loading the dumped block of a well-formed non-empty map yields exactly
that map. -/
lemma mini_yaml_load_dump (m : YMap) (hm : m ≠ []) (hwf : ∀ e ∈ m, wfEntry e = true) :
    mini_yaml_load (joinSepL '\n' (m.flatMap dumpEntryLines)) = .pdoc (.ymap m) := by
  obtain ⟨c, ln', rs, hshape, hcws, _⟩ := dump_head_char m hm hwf
  have hLne : m.flatMap dumpEntryLines ≠ [] := by rw [hshape]; simp
  have hLnl : ∀ ln ∈ m.flatMap dumpEntryLines, '\n' ∉ ln :=
    fun ln h => (dump_lines_facts hwf ln h).1
  have hjoin : joinSepL '\n' (m.flatMap dumpEntryLines)
      = c :: (ln' ++ rs.flatMap (fun q => '\n' :: q)) := by
    rw [hshape, joinSepL]
    rfl
  unfold mini_yaml_load
  rw [if_neg (by
    rw [hjoin]
    simpa [List.isEmpty_iff] using stripL_cons_ne_nil hcws)]
  simp only [splitOnCharL_joinSepL '\n' _ hLne hLnl, parseYaml_dump m [] hwf,
    List.nil_append]

/-- C2: frontmatter round-trip.  For every non-empty well-formed metadata
map `m` and every body `b`, parsing the serialized document (the YAML dump
of `m` between `---` delimiter lines followed by `b`) returns exactly
`(m, b)`. -/
theorem frontmatter_roundtrip (m : YMap) (body : String)
    (hm : m ≠ []) (hwf : ∀ e ∈ m, wfEntry e = true) :
    extract_frontmatter (serialize_frontmatter m body) = (some (.ymap m), body) := by
  have hLne : m.flatMap dumpEntryLines ≠ [] := by
    obtain ⟨c, ln', rs, hshape, _, _⟩ := dump_head_char m hm hwf
    rw [hshape]
    simp
  have hLnl : ∀ ln ∈ m.flatMap dumpEntryLines, '\n' ∉ ln :=
    fun ln h => (dump_lines_facts hwf ln h).1
  have hLdash : ∀ ln ∈ m.flatMap dumpEntryLines, stripL ln ≠ "---".data :=
    fun ln h => (dump_lines_facts hwf ln h).2
  have hcontent : (serialize_frontmatter m body).data
      = '-' :: '-' :: '-' :: '\n' :: (joinSepL '\n' (m.flatMap dumpEntryLines)
          ++ '\n' :: ('-' :: '-' :: '-' :: '\n' :: body.data)) := by
    show (("---\n".data ++ yaml_dump m) ++ "---\n".data) ++ body.data = _
    rw [yaml_dump, flatMapNl_eq _ hLne]
    rw [show ("---\n".data : List Char) = '-' :: '-' :: '-' :: '\n' :: [] from rfl]
    simp
  have hlines : splitOnCharL '\n' (serialize_frontmatter m body).data
      = "---".data :: (m.flatMap dumpEntryLines
          ++ "---".data :: splitOnCharL '\n' body.data) := by
    rw [hcontent]
    rw [show ('-' :: '-' :: '-' :: '\n' :: (joinSepL '\n' (m.flatMap dumpEntryLines)
          ++ '\n' :: ('-' :: '-' :: '-' :: '\n' :: body.data)))
        = "---".data ++ '\n' :: (joinSepL '\n' (m.flatMap dumpEntryLines)
          ++ '\n' :: ("---".data ++ '\n' :: body.data)) from rfl]
    rw [splitOnCharL_append_sep _ (by decide)]
    rw [splitOnCharL_joinSepL_append '\n' _ _ hLnl hLne]
    rw [splitOnCharL_append_sep _ (by decide)]
  have hpre : ("---".data.isPrefixOf (stripL (serialize_frontmatter m body).data)) = true := by
    rw [hcontent]
    rw [stripL_eq_rstripL _ (fun c' hc' => by
      have hcc : '-' = c' := by simpa using hc'
      rw [← hcc]
      decide)]
    rw [show ('-' :: '-' :: '-' :: '\n' :: (joinSepL '\n' (m.flatMap dumpEntryLines)
          ++ '\n' :: ('-' :: '-' :: '-' :: '\n' :: body.data)))
        = ['-', '-', '-'] ++ ('\n' :: (joinSepL '\n' (m.flatMap dumpEntryLines)
          ++ '\n' :: ('-' :: '-' :: '-' :: '\n' :: body.data))) from rfl]
    rw [rstripL_append (c := '-')
      (List.mem_cons_of_mem _ (List.mem_append_right _
        (List.mem_cons_of_mem _ (List.mem_cons_self _ _)))) (by decide)]
    exact List.isPrefixOf_iff_prefix.mpr (List.prefix_append _ _)
  have hblen : 0 < (splitOnCharL '\n' body.data).length :=
    List.length_pos.mpr (splitOnCharL_ne_nil _ _)
  unfold extract_frontmatter
  rw [if_neg (by simp [hpre])]
  rw [hlines]
  simp only []
  rw [if_neg (by
    simp only [List.length_cons, List.length_append]
    omega)]
  simp only [List.tail_cons]
  rw [findDashIdx_append _ _ hLdash]
  simp only [Option.map_some']
  rw [show ("---".data :: (m.flatMap dumpEntryLines
        ++ "---".data :: splitOnCharL '\n' body.data)).take
        ((m.flatMap dumpEntryLines).length + 1)
      = "---".data :: m.flatMap dumpEntryLines by
    rw [List.take_succ_cons, List.take_left]]
  simp only [List.drop_succ_cons, List.drop_zero]
  rw [show ((m.flatMap dumpEntryLines
        ++ "---".data :: splitOnCharL '\n' body.data)).drop
        ((m.flatMap dumpEntryLines).length + 1)
      = splitOnCharL '\n' body.data by
    rw [List.drop_append 1]
    simp]
  rw [mini_yaml_load_dump m hm hwf]
  rw [joinSepL_splitOnCharL]

/-- C2 (witness): the round-trip theorem at a concrete metadata map (a
string-list, a plain string, an int and a bool) and a concrete body. -/
theorem frontmatter_roundtrip_witness :
    extract_frontmatter (serialize_frontmatter
        [("tags", .ylist ["ai", "business"]), ("type", .yscalar (.ystr "note")),
         ("count", .yscalar (.yint 3)), ("draft", .yscalar (.ybool true))] "Body text")
      = (some (.ymap [("tags", .ylist ["ai", "business"]), ("type", .yscalar (.ystr "note")),
          ("count", .yscalar (.yint 3)), ("draft", .yscalar (.ybool true))]), "Body text") :=
  frontmatter_roundtrip _ _ (by decide) (by decide)

/-- C3 (amended): `extract_frontmatter` is a total function (never raises)
and returns `(None, the full original text)` whenever no closing `---`
line follows the opening delimiter, or the enclosed text fails YAML
parsing. -/
theorem extract_frontmatter_fails_soft (content : String)
    (h : findDashIdx ((splitOnCharL '\n' content.data).tail) = none
       ∨ ∃ i, findDashIdx ((splitOnCharL '\n' content.data).tail) = some i ∧
           mini_yaml_load (joinSepL '\n'
             (((splitOnCharL '\n' content.data).take (i + 1)).drop 1)) = .perr) :
    extract_frontmatter content = (none, content) := by
  unfold extract_frontmatter
  by_cases h1 : ("---".data.isPrefixOf (stripL content.data)) = true
  · rw [if_neg (by simp [h1])]
    simp only []
    by_cases h2 : (splitOnCharL '\n' content.data).length < 3
    · rw [if_pos h2]
    · rw [if_neg h2]
      rcases h with hf | ⟨i, hf, hload⟩
      · rw [hf]
        rfl
      · rw [hf]
        simp only [Option.map_some']
        rw [hload]
  · rw [if_pos (by simp [Bool.eq_false_iff.mpr h1])]

/-- C3 (witness): the fails-soft theorem on a document with an opening
delimiter but no closing delimiter line. -/
theorem extract_frontmatter_fails_soft_witness :
    extract_frontmatter "---\nno closing" = (none, "---\nno closing") :=
  extract_frontmatter_fails_soft _ (Or.inl (by decide))

/-- C3 (counterexample): on `"---\nhello\n---\nrest"` the enclosed text
`"hello"` is not key-value data (it loads as a bare scalar), yet
`extract_frontmatter` returns that scalar as the metadata together with
only the trailing text as body — not `(None, full original text)` as the
claim requires. -/
theorem extract_frontmatter_not_failsoft_on_scalar :
    extract_frontmatter "---\nhello\n---\nrest" = (some (.ydocScalar "hello"), "rest")
      ∧ extract_frontmatter "---\nhello\n---\nrest" ≠ (none, "---\nhello\n---\nrest") := by
  decide

/-! ## find_keyword_connections.py

`PRIORITY_KEYWORDS` (lines 10–18), `extract_keywords_from_file`
(lines 20–37) and `find_keyword_connections` (lines 39–104).  File I/O is
modelled by passing the corpus as a list of `(path, content)` pairs; the
regex `\b[a-z0-9-]+\b` over the lowercased content is modelled by an
explicit scanner with Python `re` word-boundary semantics (ASCII `\w`). -/

/-- The `PRIORITY_KEYWORDS` set (only membership is ever tested). -/
def PRIORITY_KEYWORDS : List String := [
  "llm", "langchain", "langgraph", "rag", "embedding", "vector",
  "agent", "automation", "workflow", "pipeline", "mcp", "api",
  "anthropic", "openai", "google", "claude", "gpt", "model",
  "context", "protocol", "fastapi", "docker", "cloudflare",
  "supabase", "integration", "framework", "retrieval", "augmented",
  "generation", "prompt", "engineering", "multimodal", "function",
  "calling", "tool", "use", "chain", "thought", "reasoning"]

/-- Python regex `\w` (ASCII model): letters, digits, underscore. -/
def isWordChar (c : Char) : Bool := c.isAlphanum || c == '_'

/-- The token character class `[a-z0-9-]` of the keyword regex. -/
def isTokChar (c : Char) : Bool := ('a' ≤ c && c ≤ 'z') || c.isDigit || c == '-'

def isWordOpt : Option Char → Bool
  | none => false
  | some c => isWordChar c

/-- Backtracking for the trailing `\b`: over the reversed greedy run, drop
characters from the end until a word boundary with the following character
holds; `none` when the whole attempt fails. -/
def shrinkRev : List Char → Option Char → Option (List Char)
  | [], _ => none
  | c :: rest, next =>
    if isWordChar c != isWordOpt next then some (c :: rest)
    else shrinkRev rest (some c)

/-- `re.findall(r'\b[a-z0-9-]+\b', text)`: scan left to right; at each
position with a leading word boundary and a class character, take the
greedy class run and backtrack to a trailing word boundary; on success,
resume after the match, otherwise advance one character.  `fuel` is an
upper bound on the number of scan steps (the input length suffices, since
every step consumes at least one character). -/
def scanTokens : Nat → Option Char → List Char → List (List Char)
  | 0, _, _ => []
  | _, _, [] => []
  | fuel + 1, prev, c :: rest =>
    if (isWordOpt prev != isWordChar c) && isTokChar c then
      match shrinkRev (((c :: rest).takeWhile isTokChar).reverse)
          (((c :: rest).dropWhile isTokChar).head?) with
      | some tokRev =>
          tokRev.reverse ::
            scanTokens fuel (some (tokRev.headD c))
              ((((c :: rest).takeWhile isTokChar).drop tokRev.length)
                ++ (c :: rest).dropWhile isTokChar)
      | none => scanTokens fuel (some c) rest
    else scanTokens fuel (some c) rest

/-- All regex tokens of a text. -/
def pyFindallTokens (content : List Char) : List (List Char) :=
  scanTokens content.length none content

/-- `Counter` increment: `keyword_counts[word] += 1` (insertion order is
first occurrence, as in a Python dict). -/
def bumpCounter (cnt : List (String × Nat)) (w : String) : List (String × Nat) :=
  match cnt with
  | [] => [(w, 1)]
  | (k, n) :: rest => if k == w then (k, n + 1) :: rest else (k, n) :: bumpCounter rest w

/-- `extract_keywords_from_file` (lines 20–37) applied to a file's content:
lowercase, tokenize, and count occurrences of priority keywords. -/
def extract_keywords (content : String) : List (String × Nat) :=
  ((pyFindallTokens (lowerL content.data)).map (fun t => (⟨t⟩ : String))).foldl
    (fun cnt w => if w ∈ PRIORITY_KEYWORDS then bumpCounter cnt w else cnt) []

def counterKeys (c : List (String × Nat)) : List String := c.map Prod.fst

def counterGet (c : List (String × Nat)) (w : String) : Nat :=
  match c.lookup w with
  | some n => n
  | none => 0

/-- `set(keys1) & set(keys2)`, enumerated in the first counter's insertion
order (Python's set iteration order is unspecified; only the member set is
meaningful). -/
def commonKeywords (c1 c2 : List (String × Nat)) : List String :=
  (counterKeys c1).filter (fun w => w ∈ counterKeys c2)

/-- `sum(min(counts1[kw], counts2[kw]) for kw in common_keywords)`. -/
def pairScore (c1 c2 : List (String × Nat)) : Nat :=
  ((commonKeywords c1 c2).map (fun w => min (counterGet c1 w) (counterGet c2 w))).sum

/-- One suggestion record of `find_keyword_connections`. -/
structure Conn where
  file1 : String
  file2 : String
  keywords : List String
  score : Nat
deriving DecidableEq

/-- Lexicographic (code-point) string order, Python `sorted` on two
strings. -/
def lexLe : List Char → List Char → Bool
  | [], _ => true
  | _ :: _, [] => false
  | c :: cs, d :: ds => if c < d then true else if d < c then false else lexLe cs ds

/-- `tuple(sorted([str(file1), str(file2)]))`. -/
def sortPairStr (a b : String) : String × String :=
  if lexLe a.data b.data then (a, b) else (b, a)

/-- `If len(common_keywords) >= 5`, the appended connection record. -/
def connOf (f1 f2 : String × List (String × Nat)) : Option Conn :=
  let common := commonKeywords f1.2 f2.2
  if 5 ≤ common.length then
    some ⟨f1.1, f2.1, common, pairScore f1.2 f2.2⟩
  else none

/-- `file_keywords[file_path] = keywords` — dict insertion (update in
place if present, else append). -/
def dictInsertKW (d : List (String × List (String × Nat))) (p : String)
    (kc : List (String × Nat)) : List (String × List (String × Nat)) :=
  match d with
  | [] => [(p, kc)]
  | (q, v) :: rest => if q == p then (q, kc) :: rest else (q, v) :: dictInsertKW rest p kc

/-- The collection phase (lines 50–64): keep each analyzed file whose
keyword counter is non-empty (`if keywords:`). -/
def buildFileKeywords (files : List (String × String)) :
    List (String × List (String × Nat)) :=
  files.foldl
    (fun d pc =>
      let kw := extract_keywords pc.2
      if kw.isEmpty then d else dictInsertKW d pc.1 kw) []

/-- The inner loop over `files[i+1:]`, threading `processed_pairs`. -/
def innerLoop (f1 : String × List (String × Nat)) :
    List (String × List (String × Nat)) → List (String × String) →
      List Conn × List (String × String)
  | [], pr => ([], pr)
  | f2 :: rest, pr =>
    let pair := sortPairStr f1.1 f2.1
    if pair ∈ pr then innerLoop f1 rest pr
    else
      let res := innerLoop f1 rest (pair :: pr)
      match connOf f1 f2 with
      | some conn => (conn :: res.1, res.2)
      | none => res

/-- The outer loop over `enumerate(files)`. -/
def outerLoop : List (String × List (String × Nat)) → List (String × String) →
    List Conn
  | [], _ => []
  | f1 :: rest, pr =>
    let res := innerLoop f1 rest pr
    res.1 ++ outerLoop rest res.2

/-- Stable descending insertion by score
(`connections.sort(key=lambda x: x['score'], reverse=True)`). -/
def insertByScore (c : Conn) : List Conn → List Conn
  | [] => [c]
  | d :: ds => if d.score ≤ c.score then c :: d :: ds else d :: insertByScore c ds

def sortByScoreDesc (l : List Conn) : List Conn := l.foldr insertByScore []

/-- `find_keyword_connections` (lines 39–104) over an in-memory corpus. -/
def find_keyword_connections (files : List (String × String)) : List Conn :=
  sortByScoreDesc (outerLoop (buildFileKeywords files) [])

example : extract_keywords "all about langchain today" = [("langchain", 1)] := by decide
example : extract_keywords "We use LangChain and FastAPI; langchain again."
    = [("use", 1), ("langchain", 2), ("fastapi", 1)] := by decide

example : extract_keywords "a langchain-based tool_chain" = [] := by decide

/-- C6 (counterexample): two documents whose bodies both contain
"langchain" and share no other vocabulary term produce NO suggestion —
`find_keyword_connections` requires at least 5 shared keywords — contrary
to the claim that exactly one suggestion with evidence "langchain" is
emitted. -/
theorem find_keyword_connections_langchain_counterexample :
    commonKeywords (extract_keywords "all about langchain today")
        (extract_keywords "langchain is nice") = ["langchain"]
      ∧ find_keyword_connections
          [("a.md", "all about langchain today"), ("b.md", "langchain is nice")] = [] := by
  decide

/-- C6 (amended): over a two-document corpus with distinct paths and at
least one priority keyword in each document, `find_keyword_connections`
emits exactly one connection for the unordered pair — carrying the shared
keyword set as evidence and the sum of minimum counts as score — when the
documents share at least 5 priority keywords, and emits nothing
otherwise. -/
theorem find_keyword_connections_pair (p1 c1 p2 c2 : String)
    (hp : p1 ≠ p2)
    (h1 : extract_keywords c1 ≠ []) (h2 : extract_keywords c2 ≠ []) :
    find_keyword_connections [(p1, c1), (p2, c2)]
      = if 5 ≤ (commonKeywords (extract_keywords c1) (extract_keywords c2)).length then
          [⟨p1, p2, commonKeywords (extract_keywords c1) (extract_keywords c2),
            pairScore (extract_keywords c1) (extract_keywords c2)⟩]
        else [] := by
  have he1 : (extract_keywords c1).isEmpty = false := by
    simpa [List.isEmpty_iff] using h1
  have he2 : (extract_keywords c2).isEmpty = false := by
    simpa [List.isEmpty_iff] using h2
  have hp' : (p1 == p2) = false := by simpa using hp
  have hkw : buildFileKeywords [(p1, c1), (p2, c2)]
      = [(p1, extract_keywords c1), (p2, extract_keywords c2)] := by
    simp [buildFileKeywords, dictInsertKW, h1, h2, hp']
  by_cases hc : 5 ≤ (commonKeywords (extract_keywords c1) (extract_keywords c2)).length
  · rw [if_pos hc]
    simp [find_keyword_connections, hkw, outerLoop, innerLoop, connOf, hc,
      sortByScoreDesc, insertByScore]
  · rw [if_neg hc]
    simp [find_keyword_connections, hkw, outerLoop, innerLoop, connOf, hc,
      sortByScoreDesc]

/-- C6 (witness): the amended theorem on two concrete documents that share
five priority keywords, instantiating every hypothesis. -/
theorem find_keyword_connections_pair_witness :
    find_keyword_connections [("a.md", "langchain agent rag prompt tool"),
        ("b.md", "tool prompt rag agent langchain")]
      = if 5 ≤ (commonKeywords (extract_keywords "langchain agent rag prompt tool")
            (extract_keywords "tool prompt rag agent langchain")).length then
          [⟨"a.md", "b.md",
            commonKeywords (extract_keywords "langchain agent rag prompt tool")
              (extract_keywords "tool prompt rag agent langchain"),
            pairScore (extract_keywords "langchain agent rag prompt tool")
              (extract_keywords "tool prompt rag agent langchain")⟩]
        else [] :=
  find_keyword_connections_pair _ _ _ _ (by decide) (by decide) (by decide)

/-! ## moc_generator.py

`MOCGenerator.analyze_directory` (lines 20–46),
`extract_topics_from_filename` (lines 48–66), `generate_moc_content`
(lines 68–139), `organize_files_by_topic` (lines 141–185) and
`create_moc_file` (lines 187–209).  The filesystem is modelled by a flat
`path → content` association list plus an in-memory directory listing;
`datetime.now().strftime('%Y-%m-%d')` is the `today` parameter. -/

/-- A directory listing: its name, its plain files and its
subdirectories, in listing order. -/
structure PyDir where
  name : String
  files : List String
  subdirs : List String

/-- `name.replace('.md', '')` — remove every occurrence of `.md`. -/
def removeMd : List Char → List Char
  | '.' :: 'm' :: 'd' :: rest => removeMd rest
  | c :: rest => c :: removeMd rest
  | [] => []

/-- `re.sub(r'^\d{4}-\d{2}-\d{2}[_-]', '', name)` — strip a leading date
prefix. -/
def stripDatePrefix (l : List Char) : List Char :=
  match l with
  | a :: b :: c :: d :: h1 :: e :: f :: h2 :: g :: i :: sep :: rest =>
      if a.isDigit && b.isDigit && c.isDigit && d.isDigit && h1 == '-' &&
          e.isDigit && f.isDigit && h2 == '-' && g.isDigit && i.isDigit &&
          (sep == '_' || sep == '-') then rest
      else l
  | _ => l

/-- `re.sub(r'^MOC[_-]', '', name)` — strip a leading MOC prefix. -/
def stripMocPrefix (l : List Char) : List Char :=
  match l with
  | 'M' :: 'O' :: 'C' :: sep :: rest => if sep == '_' || sep == '-' then rest else l
  | _ => l

/-- A separator character of `re.split(r'[_\-\s]+', name)`. -/
def isSepCh (c : Char) : Bool := c == '_' || c == '-' || c.isWhitespace

/-- `re.split(r'[_\-\s]+', name)`: split on runs of separators (leading or
trailing runs produce empty fields, as in Python). -/
def splitRunsGo : List Char → List Char → List (List Char)
  | [], cur => [cur.reverse]
  | c :: rest, cur =>
    if isSepCh c then cur.reverse :: splitRunsGo (rest.dropWhile isSepCh) []
    else splitRunsGo rest (c :: cur)
termination_by l _ => l.length
decreasing_by
  · simp only [List.length_cons]
    exact Nat.lt_succ_of_le (List.dropWhile_sublist _).length_le
  · simp

def splitRuns (l : List Char) : List (List Char) := splitRunsGo l []

/-- The stop-word set of `extract_topics_from_filename`. -/
def stop_words : List String :=
  ["and", "the", "for", "with", "to", "of", "in", "on", "at", "by"]

/-- `MOCGenerator.extract_topics_from_filename` (lines 48–66). -/
def extract_topics_from_filename (filename : String) : List String :=
  let name := stripMocPrefix (stripDatePrefix (removeMd filename.data))
  (splitRuns name).foldl
    (fun acc w =>
      if 2 < w.length ∧ (⟨lowerL w⟩ : String) ∉ stop_words then
        acc ++ [(⟨lowerL w⟩ : String)]
      else acc) []

/-- `Path.suffix == '.md'` (a leading-dot-only name like `.md` has empty
suffix). -/
def hasMdSuffix (name : String) : Bool :=
  ".md".data.isSuffixOf name.data && decide (3 < name.data.length)

/-- The position of the last `.` in a name, for `Path.stem`. -/
def lastDotPos (l : List Char) : Option Nat :=
  ((List.range l.length).filter (fun i => l.getD i ' ' == '.')).getLast?

/-- `Path.stem`: the file name up to its last dot (a dot at position 0
does not count as a suffix separator). -/
def stemOf (l : List Char) : List Char :=
  match lastDotPos l with
  | some i => if i = 0 then l else l.take i
  | none => l

/-- Python `str.title()` (ASCII model): uppercase each letter that follows
a non-letter, lowercase the other letters. -/
def pyTitleGo : Bool → List Char → List Char
  | _, [] => []
  | atStart, c :: rest =>
    if c.isAlpha then (if atStart then c.toUpper else c.toLower) :: pyTitleGo false rest
    else c :: pyTitleGo true rest

def pyTitle (l : List Char) : List Char := pyTitleGo true l

/-- Lexicographic insertion (Python `sorted` on strings). -/
def insertLex (s : String) : List String → List String
  | [] => [s]
  | t :: ts => if lexLe s.data t.data then s :: t :: ts else t :: insertLex s ts

def sortLex (l : List String) : List String := l.foldr insertLex []

/-- Stable descending sort by list length
(`sorted(topic_files.items(), key=lambda x: len(x[1]), reverse=True)`). -/
def insertByLen (x : String × List String) :
    List (String × List String) → List (String × List String)
  | [] => [x]
  | y :: ys => if y.2.length ≤ x.2.length then x :: y :: ys else y :: insertByLen x ys

def sortByLenDesc (l : List (String × List String)) : List (String × List String) :=
  l.foldr insertByLen []

/-- Stable descending sort by count
(`sorted(stats['common_topics'].items(), key=lambda x: x[1], reverse=True)`). -/
def insertByCount (x : String × Nat) : List (String × Nat) → List (String × Nat)
  | [] => [x]
  | y :: ys => if y.2 ≤ x.2 then x :: y :: ys else y :: insertByCount x ys

def sortByCountDesc (l : List (String × Nat)) : List (String × Nat) :=
  l.foldr insertByCount []

/-- The fields of `analyze_directory`'s stats that
`generate_moc_content` consumes: markdown file count, non-hidden
subdirectory names, and per-topic filename counts. -/
structure DirStats where
  md_files : Nat
  subdirectories : List String
  common_topics : List (String × Nat)

/-- `MOCGenerator.analyze_directory` (lines 20–46), restricted to the
fields used by content generation (`total_files` and `file_types` are
computed by the source but never read). -/
def analyze_directory (d : PyDir) : DirStats :=
  let mds := d.files.filter hasMdSuffix
  { md_files := mds.length
    subdirectories := d.subdirs.filter (fun s => !(".".data.isPrefixOf s.data))
    common_topics :=
      mds.foldl (fun cnt f => (extract_topics_from_filename f).foldl bumpCounter cnt) [] }

/-- `topic_files[primary_topic].append(file_path)` — dict-of-list append. -/
def dictAppend (d : List (String × List String)) (k : String) (v : String) :
    List (String × List String) :=
  match d with
  | [] => [(k, [v])]
  | (q, vs) :: rest =>
      if q == k then (q, vs ++ [v]) :: rest else (q, vs) :: dictAppend rest k v

/-- Link text for a grouped file:
`file_path.stem.replace('_', ' ').replace('-', ' ')`. -/
def fileLinkTitle (f : String) : String :=
  ⟨replaceCharL '-' ' ' (replaceCharL '_' ' ' (stemOf f.data))⟩

/-- `MOCGenerator.organize_files_by_topic` (lines 141–185) applied to the
directory's markdown files. -/
def organize_files_by_topic (d : PyDir) : String :=
  let mds := d.files.filter hasMdSuffix
  let grouped := mds.foldl
    (fun (st : List (String × List String) × List String) f =>
      if "MOC".data.isPrefixOf f.data then st
      else
        match extract_topics_from_filename f with
        | [] => (st.1, st.2 ++ [f])
        | t :: _ => (dictAppend st.1 t f, st.2)) ([], [])
  let sections := (sortByLenDesc grouped.1).foldl
    (fun s tf =>
      if 1 < tf.2.length then
        s ++ "### " ++ (⟨pyTitle tf.1.data⟩ : String) ++ "\n"
          ++ String.join ((sortLex tf.2).map (fun f => "- [[" ++ fileLinkTitle f ++ "]]\n"))
          ++ "\n"
      else s) "## Content Organization\n\n"
  if grouped.2.isEmpty then sections
  else
    sections ++ "### Other Files\n"
      ++ String.join ((sortLex grouped.2).map (fun f => "- [[" ++ fileLinkTitle f ++ "]]\n"))
      ++ "\n"

/-- `MOCGenerator.generate_moc_content` (lines 68–139); `today` stands for
`datetime.now().strftime('%Y-%m-%d')`. -/
def generate_moc_content (d : PyDir) (title description today : String) : String :=
  let stats := analyze_directory d
  let frontmatter :=
    "---\ntags: [MOC, " ++ (⟨replaceCharL ' ' '-' (lowerL d.name.data)⟩ : String)
      ++ "]\ntype: map-of-content\ncreated: " ++ today ++ "\nmodified: " ++ today
      ++ "\nstatus: active\ncssclass: moc\naliases: [" ++ title ++ " Hub, " ++ title
      ++ " Overview]\nhub_for: [" ++ d.name ++ "]\nrelated_mocs: []\n---\n\n"
  let overview :=
    "# " ++ title ++ " Map of Content\n\n## Overview\n"
      ++ (if description ≠ "" then description
          else "This MOC organizes all content related to "
            ++ (⟨lowerL title.data⟩ : String) ++ ".")
      ++ "\n\n**Directory**: `" ++ d.name ++ "/`\n**Total Files**: "
      ++ toString stats.md_files ++ " markdown files\n**Last Updated**: " ++ today
      ++ "\n\n"
  let subdirsSection :=
    if stats.subdirectories.isEmpty then ""
    else
      "## Subdirectories\n\n"
        ++ String.join ((sortLex stats.subdirectories).map
            (fun s => "### " ++ s ++ "\n- [[MOC - " ++ s ++ "|" ++ s ++ " Overview]]\n\n"))
  let topicsSection :=
    if stats.common_topics.isEmpty then ""
    else
      "## Key Topics\n\n"
        ++ String.join (((sortByCountDesc stats.common_topics).take 10).map
            (fun tc => "- **" ++ (⟨pyTitle tc.1.data⟩ : String) ++ "** ("
              ++ toString tc.2 ++ " files)\n"))
        ++ "\n"
  let tail :=
    "## Related MOCs\n- [[MOC - AI Development|AI Development]]\n- [[MOC - Learning Resources|Learning Resources]]\n- [[Master Index|🗂️ Master Index]]\n\n## Status & Progress\n- [ ] Organize files by topic\n- [ ] Add cross-references\n- [ ] Review and update links\n- [ ] Add examples and tutorials\n\n## Next Steps\n- Review all files in this directory\n- Create sub-MOCs for large topic clusters\n- Add relevant tags to all files\n- Connect to related MOCs\n\n---\n*This MOC was auto-generated. Please review and customize as needed.*\n"
  frontmatter ++ overview ++ subdirsSection ++ organize_files_by_topic d
    ++ topicsSection ++ tail

/-- The output path of `create_moc_file`: the explicit `output_path`
argument, or `vault/map-of-content/MOC - {title}.md`. -/
def mocOutputPath (vault title : String) : Option String → String
  | some p => p
  | none => vault ++ "/map-of-content/MOC - " ++ title ++ ".md"

/-- `MOCGenerator.create_moc_file` (lines 187–209) over the modelled
filesystem: generate the content, compute the output path, skip (returning
`False`) when a file already exists there, otherwise write the new file
and return `True`.  (Write exceptions, which also return `False`, are
outside the filesystem model.) -/
def create_moc_file (fs : List (String × String)) (vault : String) (d : PyDir)
    (title description : String) (output_path : Option String) (today : String) :
    List (String × String) × Bool :=
  let content := generate_moc_content d title description today
  let path := mocOutputPath vault title output_path
  if (fs.lookup path).isSome then (fs, false)
  else (fs ++ [(path, content)], true)

/-- Appending entries to an association list does not change a lookup that
already succeeds. -/
lemma lookup_append_left {l l' : List (String × String)} {k : String}
    (h : (l.lookup k).isSome) : (l ++ l').lookup k = l.lookup k := by
  induction l with
  | nil => simp at h
  | cons e rest ih =>
    obtain ⟨k1, v1⟩ := e
    rw [List.cons_append, List.lookup, List.lookup]
    by_cases hk : (k == k1) = true
    · rw [hk]
    · have hk' : (k == k1) = false := by simpa using hk
      rw [hk']
      have h' : (rest.lookup k).isSome := by
        rw [List.lookup, hk'] at h
        exact h
      exact ih h'

/-- C7: `create_moc_file` never overwrites.  When an index document
already exists at the computed output path it returns the filesystem
unchanged with `False`; it returns `True` exactly when no file exists at
that path; and the content of every pre-existing file is unchanged by the
call. -/
theorem create_moc_file_no_overwrite (fs : List (String × String)) (vault : String)
    (d : PyDir) (title description today : String) (output_path : Option String) :
    ((fs.lookup (mocOutputPath vault title output_path)).isSome →
        create_moc_file fs vault d title description output_path today = (fs, false))
    ∧ ((create_moc_file fs vault d title description output_path today).2 = true
        ↔ (fs.lookup (mocOutputPath vault title output_path)).isSome = false)
    ∧ (∀ p, (fs.lookup p).isSome →
        (create_moc_file fs vault d title description output_path today).1.lookup p
          = fs.lookup p) := by
  unfold create_moc_file
  by_cases h : (fs.lookup (mocOutputPath vault title output_path)).isSome
  · rw [if_pos h]
    exact ⟨fun _ => rfl, by simp [h], fun p hp => rfl⟩
  · rw [if_neg h]
    exact ⟨fun hc => absurd hc h,
      Iff.intro (fun _ => Bool.eq_false_iff.mpr h) (fun _ => rfl),
      fun p hp => lookup_append_left hp⟩

/-- C7 (witness): both directions of the no-overwrite theorem at concrete
filesystems — one where the target MOC file already exists (skip, `False`)
and one where it does not (create, `True`). -/
theorem create_moc_file_no_overwrite_witness :
    create_moc_file [("v/map-of-content/MOC - T.md", "old")] "v" ⟨"d", [], []⟩
        "T" "" none "2024-01-01"
      = ([("v/map-of-content/MOC - T.md", "old")], false)
    ∧ (create_moc_file [] "v" ⟨"d", [], []⟩ "T" "" none "2024-01-01").2 = true :=
  ⟨(create_moc_file_no_overwrite [("v/map-of-content/MOC - T.md", "old")] "v"
      ⟨"d", [], []⟩ "T" "" "2024-01-01" none).1 (by decide),
   ((create_moc_file_no_overwrite [] "v" ⟨"d", [], []⟩ "T" "" "2024-01-01" none).2.1).mpr
      (by decide)⟩

/-! ## generate_components_json.py

`run_security_validation` (lines 12–189), `fetch_download_stats`
(lines 191–352) and the component-scanning part of
`generate_components_json` (lines 374–532, 705–712).  The directory tree,
the Supabase pages and the security-audit subprocess are explicit data;
the `json.loads`-based description extraction for `.json` component files
(lines 483–501) is an abstract parameter `descOf` (none of the verified
claims depend on it).  The templates/plugins/marketplace sections
(lines 534–722) produce no `type/category/name`-keyed component entries
and are outside the embedding. -/

/-- A directory tree node: a file with content, or a directory with named
children in listing order. -/
inductive FsNode where
  | file (content : String)
  | dir (children : List (String × FsNode))

/-- The security sub-object attached to each manifest entry
(`validators` detail sub-objects and the optional `hash` field omitted;
no verified claim reads them). -/
structure SecMeta where
  validated : Bool
  valid : Option Bool
  score : Option Int
  errorCount : Nat
  warningCount : Nat
  lastValidated : Option String
deriving DecidableEq

/-- The default security object used when the lookup has no entry for a
component (lines 442–449 and 513–520). -/
def defaultSecurity : SecMeta :=
  { validated := false, valid := none, score := none,
    errorCount := 0, warningCount := 0, lastValidated := none }

/-- `download_stats.get(key, 0)`. -/
def statsGet (stats : List (String × Nat)) (k : String) : Nat := (stats.lookup k).getD 0

/-- `security_metadata.get(key, {...default...})`. -/
def secGet (sec : List (String × SecMeta)) (k : String) : SecMeta :=
  (sec.lookup k).getD defaultSecurity

/-- One manifest entry of `components_data` (a component dict of
lines 452–461 / 522–531). -/
structure ComponentEntry where
  name : String
  path : String
  category : String
  type : String
  content : String
  description : String
  downloads : Nat
  security : SecMeta
deriving DecidableEq

/-- `(file_name.endswith('.md') or file_name.endswith('.json')) and not
file_name.endswith('.py')`. -/
def qualifiesComponentFile (fn : String) : Bool :=
  (".md".data.isSuffixOf fn.data || ".json".data.isSuffixOf fn.data)
    && !(".py".data.isSuffixOf fn.data)

/-- The download/security key of a normal component:
`f"{component_type}/{category}/{name}"`. -/
def componentKey (ctype category nm : String) : String :=
  ctype ++ "/" ++ category ++ "/" ++ nm

/-- The component dict built for one qualifying file (lines 522–531). -/
def mkComponentEntry (stats : List (String × Nat)) (sec : List (String × SecMeta))
    (descOf : String → String → String → String)
    (ctype category fn content : String) : ComponentEntry :=
  { name := ⟨stemOf fn.data⟩
    path := category ++ "/" ++ fn
    category := category
    type := ⟨ctype.data.dropLast⟩
    content := content
    description := descOf ctype fn content
    downloads := statsGet stats (componentKey ctype category ⟨stemOf fn.data⟩)
    security := secGet sec (componentKey ctype category ⟨stemOf fn.data⟩) }

/-- The inner file loop of the normal component scan (lines 470–532). -/
def scanCategoryFiles (stats : List (String × Nat)) (sec : List (String × SecMeta))
    (descOf : String → String → String → String) (ctype category : String) :
    List (String × FsNode) → List ComponentEntry
  | [] => []
  | (fn, .file content) :: rest =>
    if qualifiesComponentFile fn then
      mkComponentEntry stats sec descOf ctype category fn content
        :: scanCategoryFiles stats sec descOf ctype category rest
    else scanCategoryFiles stats sec descOf ctype category rest
  | (_, .dir _) :: rest => scanCategoryFiles stats sec descOf ctype category rest

/-- The category loop of the normal component scan (lines 467–469). -/
def scanTypeCats (stats : List (String × Nat)) (sec : List (String × SecMeta))
    (descOf : String → String → String → String) (ctype : String) :
    List (String × FsNode) → List ComponentEntry
  | [] => []
  | (cat, .dir files) :: rest =>
      scanCategoryFiles stats sec descOf ctype cat files
        ++ scanTypeCats stats sec descOf ctype rest
  | (_, .file _) :: rest => scanTypeCats stats sec descOf ctype rest

def scanComponentType (stats : List (String × Nat)) (sec : List (String × SecMeta))
    (descOf : String → String → String → String) (ctype : String) :
    FsNode → List ComponentEntry
  | .file _ => []
  | .dir cats => scanTypeCats stats sec descOf ctype cats

/-- First index of `needle` in `hay` at a position `≥ start`
(Python `str.find(needle, start)`). -/
def findSubGo (needle : List Char) : List Char → Nat → Option Nat
  | [], i => if needle.isEmpty then some i else none
  | c :: rest, i =>
    if needle.isPrefixOf (c :: rest) then some i else findSubGo needle rest (i + 1)

def findSubFrom (hay needle : List Char) (start : Nat) : Option Nat :=
  (findSubGo needle (hay.drop start) start)

/-- The `description:` frontmatter extraction for skills
(lines 424–431). -/
def skillDescription (content : String) : String :=
  if "---".data.isPrefixOf content.data then
    match findSubFrom content.data "---".data 3 with
    | some endIdx =>
      let fm := (content.data.take endIdx).drop 3
      match (splitOnCharL '\n' fm).find?
          (fun ln => "description:".data.isPrefixOf ln) with
      | some ln => ⟨stripL (ln.drop "description:".data.length)⟩
      | none => ""
    | none => ""
  else ""

/-- The component dict built for one skill directory (lines 452–461). -/
def mkSkillEntry (stats : List (String × Nat)) (sec : List (String × SecMeta))
    (cat sd content : String) : ComponentEntry :=
  { name := sd
    path := cat ++ "/" ++ sd
    category := cat
    type := "skill"
    content := content
    description := skillDescription content
    downloads := statsGet stats (componentKey "skills" cat sd)
    security := secGet sec (componentKey "skills" cat sd) }

/-- The skill-directory loop (lines 408–463): a skill directory counts
only when it contains a `SKILL.md` file. -/
def scanSkillDirs (stats : List (String × Nat)) (sec : List (String × SecMeta))
    (cat : String) : List (String × FsNode) → List ComponentEntry
  | [] => []
  | (sd, .dir inner) :: rest =>
    (match inner.lookup "SKILL.md" with
     | some (.file content) => [mkSkillEntry stats sec cat sd content]
     | _ => []) ++ scanSkillDirs stats sec cat rest
  | (_, .file _) :: rest => scanSkillDirs stats sec cat rest

/-- The skills category loop (lines 405–407): category directories whose
names end in `.md` are skipped. -/
def scanSkillsCats (stats : List (String × Nat)) (sec : List (String × SecMeta)) :
    List (String × FsNode) → List ComponentEntry
  | [] => []
  | (cat, .dir sds) :: rest =>
    (if ".md".data.isSuffixOf cat.data then []
     else scanSkillDirs stats sec cat sds) ++ scanSkillsCats stats sec rest
  | (_, .file _) :: rest => scanSkillsCats stats sec rest

/-- The special skills scan (lines 404–464): `SKILL.md` inside
`category/skill-directory`, keyed `skills/category/skill-name`. -/
def scanSkills (stats : List (String × Nat)) (sec : List (String × SecMeta)) :
    FsNode → List ComponentEntry
  | .file _ => []
  | .dir cats => scanSkillsCats stats sec cats

/-- `component_types = ['agents', 'commands', 'mcps', 'settings', 'hooks',
'sandbox', 'skills']` (line 390). -/
def component_types : List String :=
  ["agents", "commands", "mcps", "settings", "hooks", "sandbox", "skills"]

/-- Scan one component type: missing or non-directory type paths are
skipped; `skills` uses the special branch. -/
def scanOneType (stats : List (String × Nat)) (sec : List (String × SecMeta))
    (descOf : String → String → String → String) (tree : String → Option FsNode)
    (ctype : String) : List ComponentEntry :=
  match tree ctype with
  | none => []
  | some node =>
    if ctype == "skills" then scanSkills stats sec node
    else scanComponentType stats sec descOf ctype node

/-- Stable lexicographic insertion by `path`
(`components_data[t].sort(key=lambda x: x['path'])`, lines 705–712). -/
def insertByPath (e : ComponentEntry) : List ComponentEntry → List ComponentEntry
  | [] => [e]
  | f :: rest =>
    if lexLe e.path.data f.path.data then e :: f :: rest else f :: insertByPath e rest

def sortByPath (l : List ComponentEntry) : List ComponentEntry := l.foldr insertByPath []

/-- The sorted manifest entries for one component type. -/
def manifestEntriesFor (stats : List (String × Nat)) (sec : List (String × SecMeta))
    (descOf : String → String → String → String) (tree : String → Option FsNode)
    (ctype : String) : List ComponentEntry :=
  sortByPath (scanOneType stats sec descOf tree ctype)

/-- The component portion of `generate_components_json`'s output: the
seven per-type entry lists of `components_data`, each sorted by path. -/
def generate_components_data (stats : List (String × Nat)) (sec : List (String × SecMeta))
    (descOf : String → String → String → String) (tree : String → Option FsNode) :
    List (String × List ComponentEntry) :=
  component_types.map (fun t => (t, manifestEntriesFor stats sec descOf tree t))

/-! ## run_security_validation (lines 12–189) -/

/-- One entry of the security report's `components` array, reduced to the
fields the lookup construction reads (`validators` detail processing
omitted; no verified claim reads it). -/
structure AuditComponentResult where
  path : String
  valid : Bool
  score : Int
  errorCount : Nat
  warningCount : Nat

/-- The observable outcome of the `npm run security-audit:json` subprocess
call: it completed (with or without the report file present), it hit the
5-minute timeout, `npm` was missing, or some other exception occurred. -/
inductive AuditOutcome where
  | completed (reportExists : Bool) (results : List AuditComponentResult)
      (timestamp : String)
  | timedOut
  | npmNotFound
  | failed

/-- First index of `"components"` in the split path
(`path_parts.index('components')` guarded by `'components' in
path_parts`). -/
def indexOfComponents : List (List Char) → Option Nat
  | [] => none
  | p :: rest =>
    if p == "components".data then some 0
    else (indexOfComponents rest).map (· + 1)

/-- `security_lookup[key] = ...` — dict assignment. -/
def dictInsertSec (d : List (String × SecMeta)) (k : String) (v : SecMeta) :
    List (String × SecMeta) :=
  match d with
  | [] => [(k, v)]
  | (q, w) :: rest => if q == k then (q, v) :: rest else (q, w) :: dictInsertSec rest k v

/-- The lookup-construction loop of `run_security_validation`
(lines 51–177): parse each reported path into `type/category/name` and
record the overall security metadata under that key. -/
def buildSecurityLookup (results : List AuditComponentResult) (ts : String) :
    List (String × SecMeta) :=
  results.foldl
    (fun lk r =>
      if r.path ≠ "" then
        let parts := splitOnCharL '/' (replaceCharL '\\' '/' r.path.data)
        match indexOfComponents parts with
        | some i =>
          if i + 3 < parts.length then
            let key := (⟨parts.getD (i + 1) []⟩ : String) ++ "/"
              ++ (⟨parts.getD (i + 2) []⟩ : String) ++ "/"
              ++ (⟨stemOf (parts.getD (i + 3) [])⟩ : String)
            dictInsertSec lk key
              { validated := true, valid := some r.valid, score := some r.score,
                errorCount := r.errorCount, warningCount := r.warningCount,
                lastValidated := some ts }
          else lk
        | none => lk
      else lk) []

/-- `run_security_validation` (lines 12–189): a timeout, a missing `npm`,
any other exception, or a missing report file all degrade to an empty
lookup; a completed run with a report builds the per-component lookup. -/
def run_security_validation : AuditOutcome → List (String × SecMeta)
  | .timedOut => []
  | .npmNotFound => []
  | .failed => []
  | .completed false _ _ => []
  | .completed true results ts => buildSecurityLookup results ts

/-! ## fetch_download_stats (lines 191–352) -/

/-- One raw event row of the `component_downloads` table. -/
structure DownloadRow where
  component_type : String
  component_name : String
deriving DecidableEq

/-- One page response of the paginated Supabase fetch. -/
structure Page where
  status : Nat
  body : List DownloadRow
  contentRange : String

/-- Python `int(s)` on a string: optional surrounding whitespace, optional
sign, at least one digit; `none` models `ValueError`. -/
def parsePyInt (s : List Char) : Option Int :=
  let t := stripL s
  let digitsToNat : List Char → Int := fun ds =>
    (ds.foldl (fun acc c => acc * 10 + (c.toNat - '0'.toNat)) 0 : Nat)
  match t with
  | '-' :: ds => if !ds.isEmpty && ds.all Char.isDigit then some (-(digitsToNat ds)) else none
  | '+' :: ds => if !ds.isEmpty && ds.all Char.isDigit then some (digitsToNat ds) else none
  | ds => if !ds.isEmpty && ds.all Char.isDigit then some (digitsToNat ds) else none

/-- The explicit-total check on the `content-range` header
(lines 260–268): break when `offset + limit >= total`. -/
def contentRangeSignalsEnd (cr : String) (offset : Nat) : Bool :=
  if cr ≠ "" ∧ cr.data.contains '/' then
    let p1 := (splitOnCharL '/' cr.data).getD 1 []
    if p1 ≠ "*".data then
      match parsePyInt p1 with
      | some total => decide ((offset : Int) + 1000 ≥ total)
      | none => false
    else false
  else false

/-- The pagination loop (`for page in range(max_pages)` with
`max_pages = 200`, `limit = 1000`, lines 234–274): stop on a non-2xx
status, an empty batch, a short batch, an explicit exhausted total, or
after 200 pages. -/
def fetchLoopGo (pages : Nat → Page) : Nat → Nat → Nat → List DownloadRow → List DownloadRow
  | 0, _, _, acc => acc
  | fuel + 1, page, offset, acc =>
    let p := pages page
    if p.status ≠ 200 ∧ p.status ≠ 206 then acc
    else if p.body.isEmpty then acc
    else
      let acc' := acc ++ p.body
      if p.body.length < 1000 then acc'
      else if contentRangeSignalsEnd p.contentRange offset then acc'
      else fetchLoopGo pages fuel (page + 1) (offset + 1000) acc'

/-- `all_downloads` after the pagination loop. -/
def fetchAllDownloads (pages : Nat → Page) : List DownloadRow :=
  fetchLoopGo pages 200 0 0 []

/-- `TYPE_MAPPING` (lines 200–210). -/
def TYPE_MAPPING : List (String × String) :=
  [("agent", "agents"), ("command", "commands"), ("setting", "settings"),
   ("hook", "hooks"), ("mcp", "mcps"), ("skill", "skills"),
   ("template", "templates"), ("plugin", "plugins"), ("sandbox", "sandbox")]

/-- `download_counts[final_key] = count` — dict assignment. -/
def dictInsertNat (d : List (String × Nat)) (k : String) (v : Nat) : List (String × Nat) :=
  match d with
  | [] => [(k, v)]
  | (q, w) :: rest => if q == k then (q, v) :: rest else (q, w) :: dictInsertNat rest k v

/-- The aggregation of raw rows into per-component counters
(lines 283–311). -/
def aggregateDownloads (rows : List DownloadRow) : List (String × Nat) :=
  let totals := rows.foldl
    (fun tot r =>
      if r.component_type ≠ "" ∧ r.component_name ≠ "" then
        let parts := splitOnCharL '/' r.component_name.data
        let category : String :=
          if r.component_name.data.contains '/' then ⟨parts.headD []⟩ else "general"
        let actual : String :=
          if r.component_name.data.contains '/' then ⟨parts.getLastD []⟩
          else r.component_name
        bumpCounter tot (r.component_type ++ "|" ++ category ++ "|" ++ actual)
      else tot) []
  totals.foldl
    (fun dc kc =>
      let parts := splitOnCharL '|' kc.1.data
      if parts.length = 3 then
        let ct : String := ⟨parts.getD 0 []⟩
        let mapped := (TYPE_MAPPING.lookup ct).getD (ct ++ "s")
        dictInsertNat dc
          (mapped ++ "/" ++ (⟨parts.getD 1 []⟩ : String) ++ "/"
            ++ (⟨parts.getD 2 []⟩ : String)) kc.2
      else dc) []

/-- `fetch_download_stats` (lines 191–352) when the `component_downloads`
pagination yields at least one row (the `download_stats`-table fallback
and the missing-credentials early return both yield counters from other
sources or `{}` and are not needed by the verified claims). -/
def fetch_download_stats (pages : Nat → Page) : List (String × Nat) :=
  aggregateDownloads (fetchAllDownloads pages)

/-! ## Scanned component keys

The `type/category/name` keys at which the component scan consults the
download-stats and security lookups, mirroring the scan structure. -/

def categoryKeys (ctype category : String) : List (String × FsNode) → List String
  | [] => []
  | (fn, .file _) :: rest =>
    (if qualifiesComponentFile fn then
      [componentKey ctype category ⟨stemOf fn.data⟩] else [])
      ++ categoryKeys ctype category rest
  | (_, .dir _) :: rest => categoryKeys ctype category rest

def typeCatsKeys (ctype : String) : List (String × FsNode) → List String
  | [] => []
  | (cat, .dir files) :: rest => categoryKeys ctype cat files ++ typeCatsKeys ctype rest
  | (_, .file _) :: rest => typeCatsKeys ctype rest

def skillDirsKeys (cat : String) : List (String × FsNode) → List String
  | [] => []
  | (sd, .dir inner) :: rest =>
    (match inner.lookup "SKILL.md" with
     | some (.file _) => [componentKey "skills" cat sd]
     | _ => []) ++ skillDirsKeys cat rest
  | (_, .file _) :: rest => skillDirsKeys cat rest

def skillsCatsKeys : List (String × FsNode) → List String
  | [] => []
  | (cat, .dir sds) :: rest =>
    (if ".md".data.isSuffixOf cat.data then [] else skillDirsKeys cat sds)
      ++ skillsCatsKeys rest
  | (_, .file _) :: rest => skillsCatsKeys rest

/-- The keys consulted while scanning one component type. -/
def typeScannedKeys (tree : String → Option FsNode) (t : String) : List String :=
  match tree t with
  | none => []
  | some (.file _) => []
  | some (.dir cats) => if t == "skills" then skillsCatsKeys cats else typeCatsKeys t cats

/-- All keys consulted by the component scan. -/
def scannedComponentKeys (tree : String → Option FsNode) : List String :=
  component_types.flatMap (typeScannedKeys tree)

example :
    manifestEntriesFor [("agents/cat/foo", 7)] [] (fun _ _ _ => "")
      (fun t => if t = "agents" then
        some (.dir [("cat", .dir [("foo.md", .file "X"), ("sub", .dir []),
          ("b.py", .file "Y"), ("a.md", .file "Z")])]) else none) "agents"
    = [{ name := "a", path := "cat/a.md", category := "cat", type := "agent",
         content := "Z", description := "", downloads := 0, security := defaultSecurity },
       { name := "foo", path := "cat/foo.md", category := "cat", type := "agent",
         content := "X", description := "", downloads := 7, security := defaultSecurity }] := by
  decide

example :
    manifestEntriesFor [("skills/pdf/tool-x", 4)] [] (fun _ _ _ => "")
      (fun t => if t = "skills" then
        some (.dir [("pdf", .dir [("tool-x",
          .dir [("SKILL.md", .file "---\ndescription: does X\n---\nbody")])])]) else none)
      "skills"
    = [{ name := "tool-x", path := "pdf/tool-x", category := "pdf", type := "skill",
         content := "---\ndescription: does X\n---\nbody", description := "does X",
         downloads := 4, security := defaultSecurity }] := by
  decide

/-! ## C8 infrastructure: sorting is a permutation, entry counting -/

lemma insertByPath_perm (e : ComponentEntry) :
    ∀ l : List ComponentEntry, (insertByPath e l).Perm (e :: l)
  | [] => .refl _
  | f :: rest => by
    rw [insertByPath]
    by_cases h : lexLe e.path.data f.path.data
    · rw [if_pos h]
    · rw [if_neg h]
      exact ((insertByPath_perm e rest).cons f).trans (List.Perm.swap e f rest)

lemma sortByPath_perm : ∀ l : List ComponentEntry, (sortByPath l).Perm l
  | [] => .refl _
  | e :: rest => by
    show (insertByPath e (sortByPath rest)).Perm (e :: rest)
    exact (insertByPath_perm e _).trans ((sortByPath_perm rest).cons e)

lemma str_append_cancel {a b c : String} (h : a ++ b = a ++ c) : b = c := by
  have hd : a.data ++ b.data = a.data ++ c.data := by
    have := congrArg String.data h
    simpa [String.data_append] using this
  exact String.ext (List.append_cancel_left hd)

lemma pair_unique_of_nodup {β : Type} :
    ∀ (l : List (String × β)), (l.map Prod.fst).Nodup →
      ∀ (a : String) (b c : β), (a, b) ∈ l → (a, c) ∈ l → b = c
  | [], _, a, b, c, hb, _ => absurd hb (List.not_mem_nil _)
  | (x, y) :: rest, hnd, a, b, c, hb, hc => by
    rw [List.map_cons, List.nodup_cons] at hnd
    rcases List.mem_cons.mp hb with h1 | h1 <;> rcases List.mem_cons.mp hc with h2 | h2
    · have hy : b = y := by simpa using congrArg Prod.snd h1
      have hz : c = y := by simpa using congrArg Prod.snd h2
      rw [hy, hz]
    · have hax : a = x := by simpa using congrArg Prod.fst h1
      have hmm : a ∈ rest.map Prod.fst := List.mem_map_of_mem Prod.fst h2
      exact absurd (hax ▸ hmm) hnd.1
    · have hax : a = x := by simpa using congrArg Prod.fst h2
      have hmm : a ∈ rest.map Prod.fst := List.mem_map_of_mem Prod.fst h1
      exact absurd (hax ▸ hmm) hnd.1
    · exact pair_unique_of_nodup rest hnd.2 a b c h1 h2

/-- The "keyed by type/category/name" selector for a scanned file: an entry
of the given category whose path is `category/file_name`. -/
def entryKeyPred (cat fn : String) (e : ComponentEntry) : Bool :=
  e.category == cat && e.path == cat ++ "/" ++ fn

lemma entryKeyPred_mk (stats : List (String × Nat)) (sec : List (String × SecMeta))
    (descOf : String → String → String → String) (ctype cat fn fn' content : String) :
    entryKeyPred cat fn (mkComponentEntry stats sec descOf ctype cat fn' content)
      = (fn' == fn) := by
  unfold entryKeyPred mkComponentEntry
  by_cases h : fn' = fn
  · subst h; simp
  · have h2 : (cat ++ "/" ++ fn' == cat ++ "/" ++ fn) = false := by
      rw [beq_eq_false_iff_ne]
      intro hcontra
      exact h (str_append_cancel hcontra)
    simp [h2, h]

lemma mem_scanCategoryFiles (stats : List (String × Nat)) (sec : List (String × SecMeta))
    (descOf : String → String → String → String) (ctype cat : String) :
    ∀ (files : List (String × FsNode)) (e : ComponentEntry),
      e ∈ scanCategoryFiles stats sec descOf ctype cat files →
      ∃ fn content, (fn, FsNode.file content) ∈ files ∧ qualifiesComponentFile fn = true
        ∧ e = mkComponentEntry stats sec descOf ctype cat fn content
  | [], e, h => absurd h (by rw [scanCategoryFiles]; exact List.not_mem_nil e)
  | (fn, .file content) :: rest, e, h => by
    rw [scanCategoryFiles] at h
    by_cases hq : qualifiesComponentFile fn = true
    · rw [if_pos hq] at h
      rcases List.mem_cons.mp h with h1 | h1
      · exact ⟨fn, content, List.mem_cons_self _ _, hq, h1⟩
      · obtain ⟨fn', c', hm, hq', he⟩ :=
          mem_scanCategoryFiles stats sec descOf ctype cat rest e h1
        exact ⟨fn', c', List.mem_cons_of_mem _ hm, hq', he⟩
    · rw [if_neg hq] at h
      obtain ⟨fn', c', hm, hq', he⟩ :=
        mem_scanCategoryFiles stats sec descOf ctype cat rest e h
      exact ⟨fn', c', List.mem_cons_of_mem _ hm, hq', he⟩
  | (fn, .dir cs) :: rest, e, h => by
    rw [scanCategoryFiles] at h
    obtain ⟨fn', c', hm, hq', he⟩ :=
      mem_scanCategoryFiles stats sec descOf ctype cat rest e h
    exact ⟨fn', c', List.mem_cons_of_mem _ hm, hq', he⟩

lemma mem_scanTypeCats (stats : List (String × Nat)) (sec : List (String × SecMeta))
    (descOf : String → String → String → String) (ctype : String) :
    ∀ (cats : List (String × FsNode)) (e : ComponentEntry),
      e ∈ scanTypeCats stats sec descOf ctype cats →
      ∃ cat files, (cat, FsNode.dir files) ∈ cats
        ∧ e ∈ scanCategoryFiles stats sec descOf ctype cat files
  | [], e, h => absurd h (by rw [scanTypeCats]; exact List.not_mem_nil e)
  | (cat, .dir files) :: rest, e, h => by
    rw [scanTypeCats] at h
    rcases List.mem_append.mp h with h1 | h1
    · exact ⟨cat, files, List.mem_cons_self _ _, h1⟩
    · obtain ⟨cat', files', hm, he⟩ := mem_scanTypeCats stats sec descOf ctype rest e h1
      exact ⟨cat', files', List.mem_cons_of_mem _ hm, he⟩
  | (cat, .file c) :: rest, e, h => by
    rw [scanTypeCats] at h
    obtain ⟨cat', files', hm, he⟩ := mem_scanTypeCats stats sec descOf ctype rest e h
    exact ⟨cat', files', List.mem_cons_of_mem _ hm, he⟩

lemma countP_scanCategoryFiles_zero (stats : List (String × Nat))
    (sec : List (String × SecMeta)) (descOf : String → String → String → String)
    (ctype cat fn : String) (files : List (String × FsNode))
    (hnot : fn ∉ files.map Prod.fst) :
    (scanCategoryFiles stats sec descOf ctype cat files).countP (entryKeyPred cat fn)
      = 0 := by
  apply List.countP_eq_zero.mpr
  intro e he
  obtain ⟨fn', c', hmem, -, rfl⟩ := mem_scanCategoryFiles stats sec descOf ctype cat files e he
  have hne : fn' ≠ fn := by
    intro h
    have hmm : fn' ∈ files.map Prod.fst := List.mem_map_of_mem Prod.fst hmem
    exact hnot (h ▸ hmm)
  simp [entryKeyPred_mk, hne]

lemma countP_scanCategoryFiles_other (stats : List (String × Nat))
    (sec : List (String × SecMeta)) (descOf : String → String → String → String)
    (ctype cat fn cat' : String) (files' : List (String × FsNode)) (hc : cat' ≠ cat) :
    (scanCategoryFiles stats sec descOf ctype cat' files').countP (entryKeyPred cat fn)
      = 0 := by
  apply List.countP_eq_zero.mpr
  intro e he
  obtain ⟨fn', c', -, -, rfl⟩ := mem_scanCategoryFiles stats sec descOf ctype cat' files' e he
  simp [entryKeyPred, mkComponentEntry, hc]

lemma countP_scanCategoryFiles_one (stats : List (String × Nat))
    (sec : List (String × SecMeta)) (descOf : String → String → String → String)
    (ctype cat fn content : String) (hq : qualifiesComponentFile fn = true) :
    ∀ (files : List (String × FsNode)), (files.map Prod.fst).Nodup →
      (fn, FsNode.file content) ∈ files →
      (scanCategoryFiles stats sec descOf ctype cat files).countP (entryKeyPred cat fn) = 1
  | [], _, hmem => absurd hmem (List.not_mem_nil _)
  | (fn', node') :: rest, hnd, hmem => by
    rw [List.map_cons, List.nodup_cons] at hnd
    by_cases hf : fn' = fn
    · subst hf
      rcases List.mem_cons.mp hmem with h1 | h1
      · have hnode : node' = FsNode.file content := by
          have := congrArg Prod.snd h1
          simpa using this.symm
        subst hnode
        rw [scanCategoryFiles, if_pos hq, List.countP_cons]
        rw [countP_scanCategoryFiles_zero stats sec descOf ctype cat fn' rest hnd.1]
        simp [entryKeyPred_mk]
      · exact absurd (List.mem_map_of_mem Prod.fst h1) hnd.1
    · have hmem' : (fn, FsNode.file content) ∈ rest := by
        rcases List.mem_cons.mp hmem with h1 | h1
        · have : fn = fn' := by simpa using congrArg Prod.fst h1
          exact absurd this.symm hf
        · exact h1
      cases node' with
      | file c' =>
        rw [scanCategoryFiles]
        by_cases hq' : qualifiesComponentFile fn' = true
        · rw [if_pos hq', List.countP_cons,
            countP_scanCategoryFiles_one stats sec descOf ctype cat fn content hq
              rest hnd.2 hmem']
          simp [entryKeyPred_mk, hf]
        · rw [if_neg hq']
          exact countP_scanCategoryFiles_one stats sec descOf ctype cat fn content hq
            rest hnd.2 hmem'
      | dir cs =>
        rw [scanCategoryFiles]
        exact countP_scanCategoryFiles_one stats sec descOf ctype cat fn content hq
          rest hnd.2 hmem'

lemma countP_scanTypeCats_zero (stats : List (String × Nat))
    (sec : List (String × SecMeta)) (descOf : String → String → String → String)
    (ctype cat fn : String) :
    ∀ (cats : List (String × FsNode)), cat ∉ cats.map Prod.fst →
      (scanTypeCats stats sec descOf ctype cats).countP (entryKeyPred cat fn) = 0
  | [], _ => rfl
  | (cat', .dir files') :: rest, hnot => by
    have hc : cat' ≠ cat := by
      intro h
      exact hnot (by simp [h])
    rw [scanTypeCats, List.countP_append,
      countP_scanCategoryFiles_other stats sec descOf ctype cat fn cat' files' hc,
      countP_scanTypeCats_zero stats sec descOf ctype cat fn rest
        (fun h => hnot (by simp; right; simpa using h))]
  | (cat', .file c) :: rest, hnot => by
    rw [scanTypeCats]
    exact countP_scanTypeCats_zero stats sec descOf ctype cat fn rest
      (fun h => hnot (by simp; right; simpa using h))

lemma countP_scanTypeCats_one (stats : List (String × Nat))
    (sec : List (String × SecMeta)) (descOf : String → String → String → String)
    (ctype cat fn : String) (files : List (String × FsNode))
    (hone : (scanCategoryFiles stats sec descOf ctype cat files).countP
      (entryKeyPred cat fn) = 1) :
    ∀ (cats : List (String × FsNode)), (cats.map Prod.fst).Nodup →
      (cat, FsNode.dir files) ∈ cats →
      (scanTypeCats stats sec descOf ctype cats).countP (entryKeyPred cat fn) = 1
  | [], _, hmem => absurd hmem (List.not_mem_nil _)
  | (cat', node') :: rest, hnd, hmem => by
    rw [List.map_cons, List.nodup_cons] at hnd
    by_cases hc : cat' = cat
    · subst hc
      rcases List.mem_cons.mp hmem with h1 | h1
      · have hnode : node' = FsNode.dir files := by
          have := congrArg Prod.snd h1
          simpa using this.symm
        subst hnode
        rw [scanTypeCats, List.countP_append, hone,
          countP_scanTypeCats_zero stats sec descOf ctype cat' fn rest hnd.1]
      · exact absurd (List.mem_map_of_mem Prod.fst h1) hnd.1
    · have hmem' : (cat, FsNode.dir files) ∈ rest := by
        rcases List.mem_cons.mp hmem with h1 | h1
        · have : cat = cat' := by simpa using congrArg Prod.fst h1
          exact absurd this.symm hc
        · exact h1
      cases node' with
      | dir files' =>
        rw [scanTypeCats, List.countP_append,
          countP_scanCategoryFiles_other stats sec descOf ctype cat fn cat' files' hc,
          countP_scanTypeCats_one stats sec descOf ctype cat fn files hone
            rest hnd.2 hmem']
      | file c =>
        rw [scanTypeCats]
        exact countP_scanTypeCats_one stats sec descOf ctype cat fn files hone
          rest hnd.2 hmem'

/-! ## C9 infrastructure: entries built over an empty security lookup -/

lemma mem_scanSkillDirs (stats : List (String × Nat)) (sec : List (String × SecMeta))
    (cat : String) :
    ∀ (sds : List (String × FsNode)) (e : ComponentEntry),
      e ∈ scanSkillDirs stats sec cat sds →
      ∃ sd content, e = mkSkillEntry stats sec cat sd content
  | [], e, h => absurd h (by rw [scanSkillDirs]; exact List.not_mem_nil e)
  | (sd, .dir inner) :: rest, e, h => by
    rw [scanSkillDirs] at h
    rcases hl : inner.lookup "SKILL.md" with _ | node
    · rw [hl] at h
      have h' : e ∈ scanSkillDirs stats sec cat rest := h
      exact mem_scanSkillDirs stats sec cat rest e h'
    · cases node with
      | file content =>
        rw [hl] at h
        have h' : e ∈ mkSkillEntry stats sec cat sd content
            :: scanSkillDirs stats sec cat rest := h
        rcases List.mem_cons.mp h' with h1 | h1
        · exact ⟨sd, content, h1⟩
        · exact mem_scanSkillDirs stats sec cat rest e h1
      | dir inner2 =>
        rw [hl] at h
        have h' : e ∈ scanSkillDirs stats sec cat rest := h
        exact mem_scanSkillDirs stats sec cat rest e h'
  | (sd, .file c) :: rest, e, h => by
    rw [scanSkillDirs] at h
    exact mem_scanSkillDirs stats sec cat rest e h

lemma mem_scanSkillsCats (stats : List (String × Nat)) (sec : List (String × SecMeta)) :
    ∀ (cats : List (String × FsNode)) (e : ComponentEntry),
      e ∈ scanSkillsCats stats sec cats →
      ∃ cat sd content, e = mkSkillEntry stats sec cat sd content
  | [], e, h => absurd h (by rw [scanSkillsCats]; exact List.not_mem_nil e)
  | (cat, .dir sds) :: rest, e, h => by
    rw [scanSkillsCats] at h
    by_cases hmd : ".md".data.isSuffixOf cat.data = true
    · rw [if_pos hmd] at h
      have h' : e ∈ scanSkillsCats stats sec rest := h
      exact mem_scanSkillsCats stats sec rest e h'
    · rw [if_neg hmd] at h
      rcases List.mem_append.mp h with h1 | h1
      · obtain ⟨sd, content, he⟩ := mem_scanSkillDirs stats sec cat sds e h1
        exact ⟨cat, sd, content, he⟩
      · exact mem_scanSkillsCats stats sec rest e h1
  | (cat, .file c) :: rest, e, h => by
    rw [scanSkillsCats] at h
    exact mem_scanSkillsCats stats sec rest e h

lemma secGet_nil (k : String) : secGet [] k = defaultSecurity := rfl

lemma security_of_mem_scanOneType (stats : List (String × Nat))
    (descOf : String → String → String → String) (tree : String → Option FsNode)
    (t : String) (e : ComponentEntry)
    (h : e ∈ scanOneType stats [] descOf tree t) : e.security = defaultSecurity := by
  unfold scanOneType at h
  rcases htree : tree t with _ | node
  · rw [htree] at h
    exact absurd h (List.not_mem_nil e)
  · rw [htree] at h
    have h' : e ∈ (if (t == "skills") = true then scanSkills stats [] node
        else scanComponentType stats [] descOf t node) := h
    by_cases hs : (t == "skills") = true
    · rw [if_pos hs] at h'
      cases node with
      | file c => exact absurd h' (List.not_mem_nil e)
      | dir cats =>
        obtain ⟨cat, sd, content, rfl⟩ := mem_scanSkillsCats stats [] cats e h'
        rfl
    · rw [if_neg hs] at h'
      cases node with
      | file c => exact absurd h' (List.not_mem_nil e)
      | dir cats =>
        obtain ⟨cat, files, -, he⟩ := mem_scanTypeCats stats [] descOf t cats e h'
        obtain ⟨fn, content, -, -, rfl⟩ :=
          mem_scanCategoryFiles stats [] descOf t cat files e he
        rfl

/-- C9: when the security-audit subprocess times out, `npm` is missing, or the
subprocess fails with any other exception, `run_security_validation` returns an
empty lookup (it never raises), and every component entry of the manifest built
from that empty lookup carries the default security sub-object: `validated`
false, `valid` and `score` null, zero error and warning counts. -/
theorem security_failure_degrades (o : AuditOutcome)
    (ho : o = AuditOutcome.timedOut ∨ o = AuditOutcome.npmNotFound
      ∨ o = AuditOutcome.failed)
    (stats : List (String × Nat)) (descOf : String → String → String → String)
    (tree : String → Option FsNode) :
    run_security_validation o = []
    ∧ ∀ tl ∈ generate_components_data stats (run_security_validation o) descOf tree,
        ∀ e ∈ tl.2,
          e.security = defaultSecurity ∧ e.security.validated = false
          ∧ e.security.valid = none ∧ e.security.score = none
          ∧ e.security.errorCount = 0 ∧ e.security.warningCount = 0 := by
  have hrun : run_security_validation o = [] := by
    rcases ho with rfl | rfl | rfl <;> rfl
  refine ⟨hrun, ?_⟩
  rw [hrun]
  intro tl htl e he
  unfold generate_components_data at htl
  obtain ⟨t, -, rfl⟩ := List.mem_map.mp htl
  have he' : e ∈ scanOneType stats [] descOf tree t :=
    ((sortByPath_perm (scanOneType stats [] descOf tree t)).mem_iff).mp he
  have hd : e.security = defaultSecurity :=
    security_of_mem_scanOneType stats descOf tree t e he'
  exact ⟨hd, by rw [hd]; rfl, by rw [hd]; rfl, by rw [hd]; rfl, by rw [hd]; rfl,
    by rw [hd]; rfl⟩

theorem security_failure_degrades_witness :
    run_security_validation AuditOutcome.timedOut = []
    ∧ ∀ tl ∈ generate_components_data [("agents/cat/a", 3)]
        (run_security_validation AuditOutcome.timedOut) (fun _ _ _ => "")
        (fun t => if t = "agents" then
          some (FsNode.dir [("cat", FsNode.dir [("a.md", FsNode.file "X")])]) else none),
        ∀ e ∈ tl.2,
          e.security = defaultSecurity ∧ e.security.validated = false
          ∧ e.security.valid = none ∧ e.security.score = none
          ∧ e.security.errorCount = 0 ∧ e.security.warningCount = 0 :=
  security_failure_degrades AuditOutcome.timedOut (Or.inl rfl)
    [("agents/cat/a", 3)] (fun _ _ _ => "")
    (fun t => if t = "agents" then
      some (FsNode.dir [("cat", FsNode.dir [("a.md", FsNode.file "X")])]) else none)

/-! ## C10: the pagination loop fetches at most 200 pages of 1000 rows -/

lemma fetchLoopGo_length_le (pages : Nat → Page)
    (hbatch : ∀ n, (pages n).body.length ≤ 1000) :
    ∀ (fuel page offset : Nat) (acc : List DownloadRow),
      (fetchLoopGo pages fuel page offset acc).length ≤ acc.length + fuel * 1000
  | 0, _, _, acc => by rw [fetchLoopGo]; omega
  | fuel + 1, page, offset, acc => by
    simp only [fetchLoopGo]
    by_cases h1 : (pages page).status ≠ 200 ∧ (pages page).status ≠ 206
    · rw [if_pos h1]; omega
    · rw [if_neg h1]
      by_cases h2 : (pages page).body.isEmpty = true
      · rw [if_pos h2]; omega
      · rw [if_neg h2]
        have hb := hbatch page
        by_cases h3 : (pages page).body.length < 1000
        · rw [if_pos h3, List.length_append]; omega
        · rw [if_neg h3]
          by_cases h4 : contentRangeSignalsEnd (pages page).contentRange offset = true
          · rw [if_pos h4, List.length_append]; omega
          · rw [if_neg h4]
            have hrec := fetchLoopGo_length_le pages hbatch fuel (page + 1)
              (offset + 1000) (acc ++ (pages page).body)
            rw [List.length_append] at hrec
            omega

/-- C10: over any sequence of page responses in which each page body carries at
most the requested 1000 rows, the pagination loop of `fetch_download_stats`
terminates within its 200-page budget and the accumulated row list never
exceeds 200,000 rows; rows the server holds beyond that bound are never
fetched. -/
theorem fetch_download_rows_bounded (pages : Nat → Page)
    (hbatch : ∀ n, (pages n).body.length ≤ 1000) :
    (fetchAllDownloads pages).length ≤ 200000 := by
  have h := fetchLoopGo_length_le pages hbatch 200 0 0 []
  simpa using h

theorem fetch_download_rows_bounded_witness :
    (fetchAllDownloads (fun _ => ⟨404, [], ""⟩)).length ≤ 200000 :=
  fetch_download_rows_bounded (fun _ => ⟨404, [], ""⟩) (fun _ => by simp)

/-! ## C8 infrastructure: the output reads stats only at scanned keys -/

lemma statsGet_cons_ne (k k' : String) (n : Nat) (stats : List (String × Nat))
    (h : k' ≠ k) : statsGet ((k, n) :: stats) k' = statsGet stats k' := by
  have hb : (k' == k) = false := beq_eq_false_iff_ne.mpr h
  simp [statsGet, List.lookup, hb]

lemma mkComponentEntry_stats_congr (s1 s2 : List (String × Nat))
    (sec : List (String × SecMeta)) (descOf : String → String → String → String)
    (ctype cat fn content : String)
    (hk : statsGet s1 (componentKey ctype cat ⟨stemOf fn.data⟩)
      = statsGet s2 (componentKey ctype cat ⟨stemOf fn.data⟩)) :
    mkComponentEntry s1 sec descOf ctype cat fn content
      = mkComponentEntry s2 sec descOf ctype cat fn content := by
  unfold mkComponentEntry
  rw [hk]

lemma scanCategoryFiles_stats_congr (s1 s2 : List (String × Nat))
    (sec : List (String × SecMeta)) (descOf : String → String → String → String)
    (ctype cat : String) :
    ∀ (files : List (String × FsNode)),
      (∀ k ∈ categoryKeys ctype cat files, statsGet s1 k = statsGet s2 k) →
      scanCategoryFiles s1 sec descOf ctype cat files
        = scanCategoryFiles s2 sec descOf ctype cat files
  | [], _ => rfl
  | (fn, .file content) :: rest, h => by
    rw [scanCategoryFiles, scanCategoryFiles]
    by_cases hq : qualifiesComponentFile fn = true
    · rw [if_pos hq, if_pos hq]
      have hhead : statsGet s1 (componentKey ctype cat ⟨stemOf fn.data⟩)
          = statsGet s2 (componentKey ctype cat ⟨stemOf fn.data⟩) := by
        apply h
        rw [categoryKeys, if_pos hq]
        exact List.mem_cons_self _ _
      have hrest : ∀ k ∈ categoryKeys ctype cat rest, statsGet s1 k = statsGet s2 k := by
        intro k hk
        apply h
        rw [categoryKeys, if_pos hq]
        exact List.mem_cons_of_mem _ hk
      rw [mkComponentEntry_stats_congr s1 s2 sec descOf ctype cat fn content hhead,
        scanCategoryFiles_stats_congr s1 s2 sec descOf ctype cat rest hrest]
    · rw [if_neg hq, if_neg hq]
      apply scanCategoryFiles_stats_congr s1 s2 sec descOf ctype cat rest
      intro k hk
      apply h
      rw [categoryKeys, if_neg hq]
      simpa using hk
  | (fn, .dir cs) :: rest, h => by
    rw [scanCategoryFiles, scanCategoryFiles]
    apply scanCategoryFiles_stats_congr s1 s2 sec descOf ctype cat rest
    intro k hk
    apply h
    rw [categoryKeys]
    exact hk

lemma scanTypeCats_stats_congr (s1 s2 : List (String × Nat))
    (sec : List (String × SecMeta)) (descOf : String → String → String → String)
    (ctype : String) :
    ∀ (cats : List (String × FsNode)),
      (∀ k ∈ typeCatsKeys ctype cats, statsGet s1 k = statsGet s2 k) →
      scanTypeCats s1 sec descOf ctype cats = scanTypeCats s2 sec descOf ctype cats
  | [], _ => rfl
  | (cat, .dir files) :: rest, h => by
    rw [scanTypeCats, scanTypeCats]
    rw [scanCategoryFiles_stats_congr s1 s2 sec descOf ctype cat files
        (fun k hk => h k (by rw [typeCatsKeys]; exact List.mem_append_left _ hk)),
      scanTypeCats_stats_congr s1 s2 sec descOf ctype rest
        (fun k hk => h k (by rw [typeCatsKeys]; exact List.mem_append_right _ hk))]
  | (cat, .file c) :: rest, h => by
    rw [scanTypeCats, scanTypeCats]
    exact scanTypeCats_stats_congr s1 s2 sec descOf ctype rest
      (fun k hk => h k (by rw [typeCatsKeys]; exact hk))

lemma mkSkillEntry_stats_congr (s1 s2 : List (String × Nat))
    (sec : List (String × SecMeta)) (cat sd content : String)
    (hk : statsGet s1 (componentKey "skills" cat sd)
      = statsGet s2 (componentKey "skills" cat sd)) :
    mkSkillEntry s1 sec cat sd content = mkSkillEntry s2 sec cat sd content := by
  unfold mkSkillEntry
  rw [hk]

lemma scanSkillDirs_stats_congr (s1 s2 : List (String × Nat))
    (sec : List (String × SecMeta)) (cat : String) :
    ∀ (sds : List (String × FsNode)),
      (∀ k ∈ skillDirsKeys cat sds, statsGet s1 k = statsGet s2 k) →
      scanSkillDirs s1 sec cat sds = scanSkillDirs s2 sec cat sds
  | [], _ => rfl
  | (sd, .dir inner) :: rest, h => by
    rw [scanSkillDirs, scanSkillDirs]
    rcases hl : inner.lookup "SKILL.md" with _ | node
    · show scanSkillDirs s1 sec cat rest = scanSkillDirs s2 sec cat rest
      exact scanSkillDirs_stats_congr s1 s2 sec cat rest
        (fun k hk => h k (by rw [skillDirsKeys, hl]; exact hk))
    · cases node with
      | file content =>
        show mkSkillEntry s1 sec cat sd content :: scanSkillDirs s1 sec cat rest
          = mkSkillEntry s2 sec cat sd content :: scanSkillDirs s2 sec cat rest
        rw [mkSkillEntry_stats_congr s1 s2 sec cat sd content
            (h _ (by rw [skillDirsKeys, hl]; exact List.mem_cons_self _ _)),
          scanSkillDirs_stats_congr s1 s2 sec cat rest
            (fun k hk => h k (by rw [skillDirsKeys, hl]; exact List.mem_cons_of_mem _ hk))]
      | dir inner2 =>
        show scanSkillDirs s1 sec cat rest = scanSkillDirs s2 sec cat rest
        exact scanSkillDirs_stats_congr s1 s2 sec cat rest
          (fun k hk => h k (by rw [skillDirsKeys, hl]; exact hk))
  | (sd, .file c) :: rest, h => by
    rw [scanSkillDirs, scanSkillDirs]
    exact scanSkillDirs_stats_congr s1 s2 sec cat rest
      (fun k hk => h k (by rw [skillDirsKeys]; exact hk))

lemma scanSkillsCats_stats_congr (s1 s2 : List (String × Nat))
    (sec : List (String × SecMeta)) :
    ∀ (cats : List (String × FsNode)),
      (∀ k ∈ skillsCatsKeys cats, statsGet s1 k = statsGet s2 k) →
      scanSkillsCats s1 sec cats = scanSkillsCats s2 sec cats
  | [], _ => rfl
  | (cat, .dir sds) :: rest, h => by
    rw [scanSkillsCats, scanSkillsCats]
    by_cases hmd : ".md".data.isSuffixOf cat.data = true
    · rw [if_pos hmd, if_pos hmd]
      show scanSkillsCats s1 sec rest = scanSkillsCats s2 sec rest
      exact scanSkillsCats_stats_congr s1 s2 sec rest
        (fun k hk => h k (by rw [skillsCatsKeys, if_pos hmd]; exact hk))
    · rw [if_neg hmd, if_neg hmd,
        scanSkillDirs_stats_congr s1 s2 sec cat sds
          (fun k hk => h k
            (by rw [skillsCatsKeys, if_neg hmd]; exact List.mem_append_left _ hk)),
        scanSkillsCats_stats_congr s1 s2 sec rest
          (fun k hk => h k
            (by rw [skillsCatsKeys, if_neg hmd]; exact List.mem_append_right _ hk))]
  | (cat, .file c) :: rest, h => by
    rw [scanSkillsCats, scanSkillsCats]
    exact scanSkillsCats_stats_congr s1 s2 sec rest
      (fun k hk => h k (by rw [skillsCatsKeys]; exact hk))

lemma scanOneType_stats_congr (s1 s2 : List (String × Nat))
    (sec : List (String × SecMeta)) (descOf : String → String → String → String)
    (tree : String → Option FsNode) (t : String)
    (h : ∀ k ∈ typeScannedKeys tree t, statsGet s1 k = statsGet s2 k) :
    scanOneType s1 sec descOf tree t = scanOneType s2 sec descOf tree t := by
  unfold scanOneType
  unfold typeScannedKeys at h
  rcases htree : tree t with _ | node
  · rfl
  · rw [htree] at h
    cases node with
    | file c =>
      show (if (t == "skills") = true then scanSkills s1 sec (FsNode.file c)
          else scanComponentType s1 sec descOf t (FsNode.file c))
        = (if (t == "skills") = true then scanSkills s2 sec (FsNode.file c)
          else scanComponentType s2 sec descOf t (FsNode.file c))
      by_cases hs : (t == "skills") = true
      · rw [if_pos hs, if_pos hs]; rfl
      · rw [if_neg hs, if_neg hs]; rfl
    | dir cats =>
      have h' : ∀ k ∈ (if (t == "skills") = true then skillsCatsKeys cats
          else typeCatsKeys t cats), statsGet s1 k = statsGet s2 k := h
      show (if (t == "skills") = true then scanSkills s1 sec (FsNode.dir cats)
          else scanComponentType s1 sec descOf t (FsNode.dir cats))
        = (if (t == "skills") = true then scanSkills s2 sec (FsNode.dir cats)
          else scanComponentType s2 sec descOf t (FsNode.dir cats))
      by_cases hs : (t == "skills") = true
      · rw [if_pos hs] at h'
        rw [if_pos hs, if_pos hs]
        show scanSkillsCats s1 sec cats = scanSkillsCats s2 sec cats
        exact scanSkillsCats_stats_congr s1 s2 sec cats h'
      · rw [if_neg hs] at h'
        rw [if_neg hs, if_neg hs]
        show scanTypeCats s1 sec descOf t cats = scanTypeCats s2 sec descOf t cats
        exact scanTypeCats_stats_congr s1 s2 sec descOf t cats h'

lemma generate_components_data_stats_congr (s1 s2 : List (String × Nat))
    (sec : List (String × SecMeta)) (descOf : String → String → String → String)
    (tree : String → Option FsNode)
    (h : ∀ k ∈ scannedComponentKeys tree, statsGet s1 k = statsGet s2 k) :
    generate_components_data s1 sec descOf tree
      = generate_components_data s2 sec descOf tree := by
  unfold generate_components_data manifestEntriesFor
  apply List.map_congr_left
  intro t ht
  have hone : scanOneType s1 sec descOf tree t = scanOneType s2 sec descOf tree t := by
    apply scanOneType_stats_congr
    intro k hk
    apply h
    unfold scannedComponentKeys
    exact List.mem_flatMap.mpr ⟨t, ht, hk⟩
  rw [hone]

/-- C8: for any scanned directory tree, a qualifying component file (markdown
or JSON, not Python) of a non-skills component type `t` under category `cat`
yields exactly one entry of `t`'s manifest list matching the
category-and-path key, that entry is exactly the component dict built for the
file — whose download count and security metadata are looked up at the
`type/category/name` key — and any download-stats row whose key matches no
scanned component leaves the entire generated output unchanged (unmatched
stats are silently dropped). -/
theorem manifest_one_entry_per_component (stats : List (String × Nat))
    (sec : List (String × SecMeta)) (descOf : String → String → String → String)
    (tree : String → Option FsNode) (t cat fn content : String)
    (cats files : List (String × FsNode))
    (ht : t ∈ component_types) (hts : t ≠ "skills")
    (htree : tree t = some (FsNode.dir cats))
    (hcnd : (cats.map Prod.fst).Nodup) (hcat : (cat, FsNode.dir files) ∈ cats)
    (hfnd : (files.map Prod.fst).Nodup) (hfile : (fn, FsNode.file content) ∈ files)
    (hq : qualifiesComponentFile fn = true) :
    ((t, manifestEntriesFor stats sec descOf tree t)
        ∈ generate_components_data stats sec descOf tree
      ∧ (manifestEntriesFor stats sec descOf tree t).countP (entryKeyPred cat fn) = 1
      ∧ ∀ e ∈ manifestEntriesFor stats sec descOf tree t,
          entryKeyPred cat fn e = true →
            e = mkComponentEntry stats sec descOf t cat fn content)
    ∧ ∀ (k : String) (n : Nat), k ∉ scannedComponentKeys tree →
        generate_components_data ((k, n) :: stats) sec descOf tree
          = generate_components_data stats sec descOf tree := by
  have hscan : scanOneType stats sec descOf tree t
      = scanTypeCats stats sec descOf t cats := by
    unfold scanOneType
    rw [htree]
    show (if (t == "skills") = true then scanSkills stats sec (FsNode.dir cats)
        else scanComponentType stats sec descOf t (FsNode.dir cats))
      = scanTypeCats stats sec descOf t cats
    rw [if_neg (by simpa using hts)]
    rfl
  refine ⟨⟨?_, ?_, ?_⟩, ?_⟩
  · unfold generate_components_data
    exact List.mem_map.mpr ⟨t, ht, rfl⟩
  · unfold manifestEntriesFor
    rw [(sortByPath_perm _).countP_eq, hscan]
    exact countP_scanTypeCats_one stats sec descOf t cat fn files
      (countP_scanCategoryFiles_one stats sec descOf t cat fn content hq
        files hfnd hfile)
      cats hcnd hcat
  · intro e he hpred
    have he' : e ∈ scanTypeCats stats sec descOf t cats := by
      have hm := ((sortByPath_perm (scanOneType stats sec descOf tree t)).mem_iff).mp he
      rwa [hscan] at hm
    obtain ⟨cat', files', hmemc, hef⟩ := mem_scanTypeCats stats sec descOf t cats e he'
    obtain ⟨fn', c', hmemf, hq', rfl⟩ :=
      mem_scanCategoryFiles stats sec descOf t cat' files' e hef
    have h1 : cat' = cat ∧ cat' ++ "/" ++ fn' = cat ++ "/" ++ fn := by
      simpa [entryKeyPred, mkComponentEntry] using hpred
    obtain ⟨hcat', hpath⟩ := h1
    subst hcat'
    have hfn' : fn' = fn := str_append_cancel hpath
    subst hfn'
    have hfe : FsNode.dir files' = FsNode.dir files :=
      pair_unique_of_nodup cats hcnd cat' (FsNode.dir files') (FsNode.dir files)
        hmemc hcat
    injection hfe with hfiles
    subst hfiles
    have hce : FsNode.file c' = FsNode.file content :=
      pair_unique_of_nodup files' hfnd fn' (FsNode.file c') (FsNode.file content)
        hmemf hfile
    injection hce with hc
    subst hc
    rfl
  · intro k n hk
    apply generate_components_data_stats_congr
    intro k' hk'
    have hne : k' ≠ k := fun he => hk (he ▸ hk')
    exact statsGet_cons_ne k k' n stats hne

theorem manifest_one_entry_per_component_witness :
    (("agents", manifestEntriesFor [("agents/cat/foo", 7)] [] (fun _ _ _ => "")
        (fun s => if s = "agents" then
          some (FsNode.dir [("cat", FsNode.dir [("foo.md", FsNode.file "X"),
            ("sub", FsNode.dir []), ("b.py", FsNode.file "Y"),
            ("a.md", FsNode.file "Z")])]) else none) "agents")
        ∈ generate_components_data [("agents/cat/foo", 7)] [] (fun _ _ _ => "")
          (fun s => if s = "agents" then
            some (FsNode.dir [("cat", FsNode.dir [("foo.md", FsNode.file "X"),
              ("sub", FsNode.dir []), ("b.py", FsNode.file "Y"),
              ("a.md", FsNode.file "Z")])]) else none)
      ∧ (manifestEntriesFor [("agents/cat/foo", 7)] [] (fun _ _ _ => "")
          (fun s => if s = "agents" then
            some (FsNode.dir [("cat", FsNode.dir [("foo.md", FsNode.file "X"),
              ("sub", FsNode.dir []), ("b.py", FsNode.file "Y"),
              ("a.md", FsNode.file "Z")])]) else none) "agents").countP
          (entryKeyPred "cat" "foo.md") = 1
      ∧ ∀ e ∈ manifestEntriesFor [("agents/cat/foo", 7)] [] (fun _ _ _ => "")
          (fun s => if s = "agents" then
            some (FsNode.dir [("cat", FsNode.dir [("foo.md", FsNode.file "X"),
              ("sub", FsNode.dir []), ("b.py", FsNode.file "Y"),
              ("a.md", FsNode.file "Z")])]) else none) "agents",
          entryKeyPred "cat" "foo.md" e = true →
            e = mkComponentEntry [("agents/cat/foo", 7)] [] (fun _ _ _ => "")
              "agents" "cat" "foo.md" "X")
    ∧ ∀ (k : String) (n : Nat),
        k ∉ scannedComponentKeys (fun s => if s = "agents" then
          some (FsNode.dir [("cat", FsNode.dir [("foo.md", FsNode.file "X"),
            ("sub", FsNode.dir []), ("b.py", FsNode.file "Y"),
            ("a.md", FsNode.file "Z")])]) else none) →
        generate_components_data ((k, n) :: [("agents/cat/foo", 7)]) []
          (fun _ _ _ => "")
          (fun s => if s = "agents" then
            some (FsNode.dir [("cat", FsNode.dir [("foo.md", FsNode.file "X"),
              ("sub", FsNode.dir []), ("b.py", FsNode.file "Y"),
              ("a.md", FsNode.file "Z")])]) else none)
          = generate_components_data [("agents/cat/foo", 7)] [] (fun _ _ _ => "")
            (fun s => if s = "agents" then
              some (FsNode.dir [("cat", FsNode.dir [("foo.md", FsNode.file "X"),
                ("sub", FsNode.dir []), ("b.py", FsNode.file "Y"),
                ("a.md", FsNode.file "Z")])]) else none) :=
  manifest_one_entry_per_component [("agents/cat/foo", 7)] [] (fun _ _ _ => "")
    (fun s => if s = "agents" then
      some (FsNode.dir [("cat", FsNode.dir [("foo.md", FsNode.file "X"),
        ("sub", FsNode.dir []), ("b.py", FsNode.file "Y"),
        ("a.md", FsNode.file "Z")])]) else none)
    "agents" "cat" "foo.md" "X"
    [("cat", FsNode.dir [("foo.md", FsNode.file "X"), ("sub", FsNode.dir []),
      ("b.py", FsNode.file "Y"), ("a.md", FsNode.file "Z")])]
    [("foo.md", FsNode.file "X"), ("sub", FsNode.dir []),
      ("b.py", FsNode.file "Y"), ("a.md", FsNode.file "Z")]
    (by decide) (by decide) rfl (by decide) (List.mem_cons_self _ _)
    (by decide) (List.mem_cons_self _ _) (by decide)
